import Mathlib

/-!
Verification of the micro-grad-rs scalar autodiff engine.

This file gives a shallow embedding of the computation-graph core in
`src/scalar.rs` and the neural-network consumer in `src/nn.rs`, and proves
the specification claims about them.

Modelling choices:
* A Rust `Value<T>` heap node becomes a `Node K` record; the reference-counted
  heap is a `Store K` (a list of nodes), and a `Scalar<T>` handle is the index
  of its node.  Pointer identity (the `PartialEq`/`Hash` impls of
  `scalar.rs:197-210`) becomes index identity.
* The generic float parameter `T : Float` becomes a commutative ring `K`
  together with a `Prims K` record carrying the primitive `exp`, `tanh`,
  `powf` and `Display` operations of the host numeric type.  Claims about
  transcendental values instantiate `K := ℝ` with the real functions;
  purely structural claims instantiate `K := ℚ`.
* Each operation's backward closure (installed at construction in
  `scalar.rs`) is determined by the node's operation kind, so we store the
  kind in the node and interpret it in `backStep`; the interpretation follows
  each closure's text literally, including the order of the two `+=` updates
  and which cells are read at invocation time.
* `Scalar::back_prop` (`scalar.rs:130-157`) recurses on the DAG without fuel;
  the embedding uses fuel `st.length + 1`, which is proved sufficient for
  well-formed stores (producers of a node always have smaller indices, which
  holds for every store built by the constructors because operands exist
  before the node they produce).
-/

namespace MicroGrad

/-- Operation kind of a graph node.  The Rust code stores a producer vector
and a backward closure; both are functions of the construction site, so the
embedding stores the construction site.  `leaf` is a `Scalar::new` node (no
producers, no closure). -/
inductive Op (K : Type) where
  | leaf : Op K
  | add (a b : Nat) : Op K
  | mul (a b : Nat) : Op K
  | pow (a : Nat) (p : K) : Op K
  | exp (a : Nat) : Op K
  | tanh (a : Nat) : Op K
deriving Repr, DecidableEq

/-- One graph node: the `Value<T>` struct of `scalar.rs:11-18` (`data`,
`grad`, `label`, producers and backward closure; the latter two are encoded
by `op`). -/
structure Node (K : Type) where
  data : K
  grad : K
  label : String
  op : Op K
deriving Repr, DecidableEq

/-- The heap of graph nodes; a `Scalar<T>` handle is an index into it. -/
abbrev Store (K : Type) := List (Node K)

/-- The primitive numeric operations the Rust code takes from
`num_traits::Float` and `Display`. -/
structure Prims (K : Type) where
  exp : K → K
  tanh : K → K
  powf : K → K → K
  display : K → String

variable {K : Type} [CommRing K]

/-- Reading a node through a handle.  Out-of-range indices cannot arise from
real handles; they default to a fresh leaf. -/
def getNode (st : Store K) (i : Nat) : Node K :=
  st.getD i { data := 0, grad := 0, label := "", op := .leaf }

/-- The node's `data` cell. -/
def dataAt (st : Store K) (i : Nat) : K := (getNode st i).data

/-- The node's `grad` cell. -/
def gradAt (st : Store K) (i : Nat) : K := (getNode st i).grad

/-- The node's `label`. -/
def labelAt (st : Store K) (i : Nat) : String := (getNode st i).label

/-- The producer list of the operation that created a node
(`Value.producers`): `vec![self, rhs]` for binary operations,
`vec![self]` for unary ones, empty for leaves. -/
def producersOf : Op K → List Nat
  | .leaf => []
  | .add a b => [a, b]
  | .mul a b => [a, b]
  | .pow a _ => [a]
  | .exp a => [a]
  | .tanh a => [a]

/-- Producers of the node at index `i`. -/
def prodsAt (st : Store K) (i : Nat) : List Nat := producersOf (getNode st i).op

/-- Allocate a new node at the end of the store, returning the new handle. -/
def pushNode (st : Store K) (n : Node K) : Store K × Nat :=
  (st ++ [n], st.length)

/-- Model of `Scalar::new(data)` (`scalar.rs:51-55`): a leaf with `grad = 0` and an
empty label. -/
def newS (st : Store K) (x : K) : Store K × Nat :=
  pushNode st { data := x, grad := 0, label := "", op := .leaf }

/-- Model of `Scalar::set_label` (`scalar.rs:159-161`). -/
def setLabel (st : Store K) (i : Nat) (l : String) : Store K :=
  st.set i { getNode st i with label := l }

/-- In-place mutation of a node's `data` cell (the `RefCell` write used by
the optimizer between graph construction and the backward pass). -/
def setData (st : Store K) (i : Nat) (v : K) : Store K :=
  st.set i { getNode st i with data := v }

/-- Model of `grad.replace(v)`: overwrite a node's `grad` cell. -/
def setGrad (st : Store K) (i : Nat) (v : K) : Store K :=
  st.set i { getNode st i with grad := v }

/-- Model of `*grad.borrow_mut() += v`: accumulate into a node's `grad` cell. -/
def addGrad (st : Store K) (i : Nat) (v : K) : Store K :=
  st.set i { getNode st i with grad := (getNode st i).grad + v }

/-- Model of `impl Add for &Scalar` (`scalar.rs:214-241`): eagerly computed data,
producers `[self, rhs]`. -/
def addS (st : Store K) (a b : Nat) : Store K × Nat :=
  pushNode st
    { data := dataAt st a + dataAt st b
      grad := 0
      label := "(" ++ labelAt st a ++ " + " ++ labelAt st b ++ ")"
      op := .add a b }

/-- Model of `impl Mul for &Scalar` (`scalar.rs:252-284`). -/
def mulS (st : Store K) (a b : Nat) : Store K × Nat :=
  pushNode st
    { data := dataAt st a * dataAt st b
      grad := 0
      label := "(" ++ labelAt st a ++ " * " ++ labelAt st b ++ ")"
      op := .mul a b }

/-- Model of `Scalar::pow` (`scalar.rs:107-128`). -/
def powS (P : Prims K) (st : Store K) (a : Nat) (p : K) : Store K × Nat :=
  pushNode st
    { data := P.powf (dataAt st a) p
      grad := 0
      label := "(" ++ labelAt st a ++ "^" ++ P.display p ++ ")"
      op := .pow a p }

/-- Model of `Scalar::exp` (`scalar.rs:63-83`). -/
def expS (P : Prims K) (st : Store K) (a : Nat) : Store K × Nat :=
  pushNode st
    { data := P.exp (dataAt st a)
      grad := 0
      label := "exp(" ++ labelAt st a ++ ")"
      op := .exp a }

/-- Model of `Scalar::tanh` (`scalar.rs:85-105`). -/
def tanhS (P : Prims K) (st : Store K) (a : Nat) : Store K × Nat :=
  pushNode st
    { data := P.tanh (dataAt st a)
      grad := 0
      label := "tanh(" ++ labelAt st a ++ ")"
      op := .tanh a }

/-- Model of `Scalar::add_number` (`scalar.rs:167-171`): a fresh constant leaf, then
`self + rhs`. -/
def addNumber (P : Prims K) (st : Store K) (a : Nat) (k : K) : Store K × Nat :=
  let r := newS st k
  let st2 := setLabel r.1 r.2 ("(Constant " ++ P.display k ++ ")")
  addS st2 a r.2

/-- Model of `Scalar::mul_number` (`scalar.rs:173-177`). -/
def mulNumber (P : Prims K) (st : Store K) (a : Nat) (k : K) : Store K × Nat :=
  let r := newS st k
  let st2 := setLabel r.1 r.2 ("(Constant " ++ P.display k ++ ")")
  mulS st2 a r.2

/-- Model of `impl Neg for &Scalar` (`scalar.rs:286-294`): `mul_number(-1)`,
relabeled. -/
def negS (P : Prims K) (st : Store K) (a : Nat) : Store K × Nat :=
  let r := mulNumber P st a (-1)
  (setLabel r.1 r.2 ("(not " ++ labelAt st a ++ ")"), r.2)

/-- Model of `impl Sub for &Scalar` (`scalar.rs:296-305`): `self + (-rhs)`,
relabeled. -/
def subS (P : Prims K) (st : Store K) (a b : Nat) : Store K × Nat :=
  let n := negS P st b
  let r := addS n.1 a n.2
  (setLabel r.1 r.2 ("(" ++ labelAt st a ++ " - " ++ labelAt st b ++ ")"), r.2)

/-- Model of `impl Div for &Scalar` (`scalar.rs:243-250`): `self * rhs.pow(-1)`. -/
def divS (P : Prims K) (st : Store K) (a b : Nat) : Store K × Nat :=
  let r := powS P st b (-1)
  mulS r.1 a r.2

/-- One backward-closure invocation (`back_prop()` on the node at `i`).
Each branch is the body of the closure installed at the corresponding
construction site in `scalar.rs`, with reads and writes in source order;
all reads are from the current store, as the closures read the shared
`RefCell`s at invocation time. -/
def backStep (P : Prims K) (st : Store K) (i : Nat) : Store K :=
  match (getNode st i).op with
  | .leaf => st
  | .add a b =>
      let st1 := addGrad st a (gradAt st i)
      addGrad st1 b (gradAt st1 i)
  | .mul a b =>
      let sd := dataAt st a
      let rd := dataAt st b
      let og := gradAt st i
      let st1 := addGrad st a (rd * og)
      addGrad st1 b (sd * og)
  | .pow a p =>
      let sd := dataAt st a
      let og := gradAt st i
      addGrad st a (p * P.powf sd (p - 1) * og)
  | .exp a =>
      let od := dataAt st i
      let og := gradAt st i
      addGrad st a (od * og)
  | .tanh a =>
      let t := dataAt st i
      let og := gradAt st i
      addGrad st a ((1 - t * t) * og)

/-- The recursive `visit` of `Scalar::back_prop` (`scalar.rs:135-146`):
depth-first traversal over producer edges with a visited set (`vo.1`),
appending each node to the topological ordering (`vo.2`) after its
producers; the `for child in producers` loop is the `foldl`.  `fuel` bounds
the recursion depth; `st.length + 1` is enough for well-formed stores, where
producer indices strictly decrease. -/
def visit (st : Store K) : Nat → List Nat × List Nat → Nat → List Nat × List Nat
  | 0, vo, _ => vo
  | fuel + 1, vo, i =>
    if i ∈ vo.1 then vo
    else
      let r := (prodsAt st i).foldl (visit st fuel) (i :: vo.1, vo.2)
      (r.1, r.2 ++ [i])

/-- The topological ordering `back_prop` builds from a root. -/
def backOrder (st : Store K) (root : Nat) : List Nat :=
  (visit st (st.length + 1) ([], []) root).2

/-- Model of `Scalar::back_prop` (`scalar.rs:130-157`): build the topological
ordering, seed the root's grad with `T::one()`, then invoke the closures in
reverse order. -/
def backProp (P : Prims K) (st : Store K) (root : Nat) : Store K :=
  let order := backOrder st root
  order.reverse.foldl (backStep P) (setGrad st root 1)

/-- Producer wellformedness: every store built by the constructors satisfies
it, because operands are allocated before the nodes they produce. -/
def WF (st : Store K) : Prop :=
  ∀ i < st.length, ∀ p ∈ prodsAt st i, p < i

instance (st : Store K) : Decidable (WF st) := by
  unfold WF; infer_instance

/-- Reachability through producer edges. -/
def Reaches (st : Store K) (i j : Nat) : Prop :=
  Relation.ReflTransGen (fun a b => b ∈ prodsAt st a) i j

/-! ### The topological-order predicate

`TopoFrom st seen O` says: walking `O` from the left, each element's
producers already occur in `seen` or earlier in `O`. -/

def TopoFrom (st : Store K) : List Nat → List Nat → Prop
  | _, [] => True
  | seen, x :: rest =>
      (∀ p ∈ prodsAt st x, p ∈ seen) ∧ TopoFrom st (seen ++ [x]) rest

/-! ### Correctness of the depth-first traversal

The DFS invariants: `VisitIn` is the hygiene of a visited-set/ordering pair
on entry (all ordered nodes are visited, the ordering is duplicate-free and
topologically sorted, and every "gray" node — visited but not yet ordered,
i.e. on the DFS stack — has index at least `b`).  `VisitOut` relates the
pair before and after a traversal step. -/

structure VisitIn (st : Store K) (V O : List Nat) (b : Nat) : Prop where
  nodup : O.Nodup
  sub : ∀ x ∈ O, x ∈ V
  gray : ∀ v ∈ V, v ∉ O → b ≤ v
  topo : TopoFrom st [] O

structure VisitOut (st : Store K) (V O V2 O2 : List Nat) : Prop where
  monoV : ∀ v ∈ V, v ∈ V2
  monoO : ∀ x ∈ O, x ∈ O2
  grayNew : ∀ v ∈ V2, v ∉ O2 → v ∈ V ∧ v ∉ O
  grayOld : ∀ v ∈ V, v ∉ O → v ∉ O2
  nodup : O2.Nodup
  sub : ∀ x ∈ O2, x ∈ V2
  topo : TopoFrom st [] O2

/-- Conclusion of a single `visit` call from node `i`. -/
def VOutS (st : Store K) (i : Nat) (V O : List Nat)
    (r : List Nat × List Nat) : Prop :=
  VisitOut st V O r.1 r.2 ∧ i ∈ r.1 ∧ (∀ x, Reaches st i x → x ∈ r.1) ∧
    (∀ x ∈ r.1, x ∈ V ∨ Reaches st i x)

/-- Conclusion of the loop over a producer list `cs`. -/
def VOutL (st : Store K) (cs : List Nat) (V O : List Nat)
    (r : List Nat × List Nat) : Prop :=
  VisitOut st V O r.1 r.2 ∧ (∀ c ∈ cs, c ∈ r.1) ∧
    (∀ x, (∃ c ∈ cs, Reaches st c x) → x ∈ r.1) ∧
    (∀ x ∈ r.1, x ∈ V ∨ ∃ c ∈ cs, Reaches st c x)

/-- The `weight * x + bias` accumulation loop of `Neuron::forward`
(`nn.rs:35-38`): starting from the bias handle, build `input * weight` and
then `sum + product` for each pair. -/
def neuronSum (st : Store K) (b : Nat) (l : List (Nat × Nat)) : Store K × Nat :=
  l.foldl (fun acc iw =>
    let m := mulS acc.1 iw.1 iw.2
    addS m.1 acc.2 m.2) (st, b)

/-- Model of `Neuron::forward` (`nn.rs:29-40`): shape check first — the error path
returns before any graph operation, so the store comes back unchanged —
then the accumulation loop and a final `tanh`. -/
def neuronForward (P : Prims K) (st : Store K) (weights : List Nat)
    (bias : Nat) (inputs : List Nat) : Except String Nat × Store K :=
  if inputs.length ≠ weights.length then
    (.error ("Expected " ++ toString weights.length ++ " inputs, not "
      ++ toString inputs.length), st)
  else
    let s := neuronSum st bias (inputs.zip weights)
    let t := tanhS P s.1 s.2
    (.ok t.2, t.1)

/-- The `map + collect` over a layer's neurons (`nn.rs:72`): each neuron's
`Result` is unwrapped with `.expect("")`, so an `Err` does not reach the
caller — it aborts the computation.  The abort (panic) is modelled as
`none`; note the return type has no error channel. -/
def neuronsForward (P : Prims K) (inputs : List Nat) :
    Store K → List (List Nat × Nat) → Option (Store K × List Nat)
  | st, [] => some (st, [])
  | st, nw :: rest =>
    match neuronForward P st nw.1 nw.2 inputs with
    | (.ok o, st2) =>
        match neuronsForward P inputs st2 rest with
        | some (st3, os) => some (st3, o :: os)
        | none => none
    | (.error _, _) => none

/-- Model of `Layer::forward` (`nn.rs:71-74`). -/
def layerForward (P : Prims K) (st : Store K)
    (neurons : List (List Nat × Nat)) (inputs : List Nat) :
    Option (Store K × List Nat) :=
  neuronsForward P inputs st neurons

/-- The `Scalar::new` mapping over a plain number vector
(`nn.rs:43`, `nn.rs:77`). -/
def pushLeaves : Store K → List K → Store K × List Nat
  | st, [] => (st, [])
  | st, x :: xs =>
      let r := newS st x
      let rest := pushLeaves r.1 xs
      (rest.1, r.2 :: rest.2)

/-- Model of `Layer::forward_with_numbers` (`nn.rs:76-80`). -/
def layerForwardNums (P : Prims K) (st : Store K)
    (neurons : List (List Nat × Nat)) (nums : List K) :
    Option (Store K × List Nat) :=
  let inp := pushLeaves st nums
  neuronsForward P inp.2 inp.1 neurons

/-- The `for layer in layers.skip(1)` loop of `MultiLayerPerceptron::forward`
(`nn.rs:113-115`). -/
def mlpLayers (P : Prims K) :
    Store K → List Nat → List (List (List Nat × Nat)) → Option (Store K × List Nat)
  | st, hidden, [] => some (st, hidden)
  | st, hidden, l :: ls =>
      match layerForward P st l hidden with
      | none => none
      | some r => mlpLayers P r.1 r.2 ls

/-- Model of `MultiLayerPerceptron::forward` (`nn.rs:111-117`): the first layer gets
the raw numbers, later layers the previous hidden outputs.  Indexing
`layers[0]` on an empty MLP panics, modelled as `none`. -/
def mlpForward (P : Prims K) (st : Store K)
    (layers : List (List (List Nat × Nat))) (nums : List K) :
    Option (Store K × List Nat) :=
  match layers with
  | [] => none
  | l0 :: rest =>
      match layerForwardNums P st l0 nums with
      | none => none
      | some r => mlpLayers P r.1 r.2 rest

/-! ### Instantiations and the concrete graphs of the testable properties -/

/-- A rational-valued instantiation used to exercise the structural claims;
the graphs involved contain no `pow`/`exp`/`tanh` node, so those primitives
are irrelevant and set to constant functions. -/
def intPrims : Prims ℤ := ⟨fun _ => 0, fun _ => 0, fun _ _ => 0, fun _ => ""⟩

/-- The real-valued instantiation: `Real.exp`, `Real.tanh` and real
exponentiation model the `f64` primitives. -/
noncomputable def realPrims : Prims ℝ :=
  ⟨Real.exp, Real.tanh, fun x p => x ^ p, fun _ => ""⟩

/-- The reused-operand graph `c = a + a`: one leaf used as both operands of
a single add node. -/
def reuseGraph (da : K) : Store K × Nat :=
  let a := newS ([] : Store K) da
  addS a.1 a.2 a.2

/-- A single multiply node over two leaves, `c = a * b`. -/
def mulGraph (da db : K) : Store K × Nat :=
  let a := newS ([] : Store K) da
  let b := newS a.1 db
  mulS b.1 a.2 b.2

/-- The two-level chain `s2 = (a + b) + e` (node ids: `a`=0, `b`=1,
`s1`=2, `e`=3, `s2`=4). -/
def chainGraph (da db de : K) : Store K × Nat :=
  let a := newS ([] : Store K) da
  let b := newS a.1 db
  let s1 := addS b.1 a.2 b.2
  let e := newS s1.1 de
  addS e.1 s1.2 e.2

/-- The five-leaf linear part of the canonical example of `main.rs:72-79`:
`x1`=0, `x2`=1, `w1`=2, `w2`=3, `b`=4, `x1w1`=5, `x2w2`=6,
`x1w1_x2w2`=7, `sum`=8. -/
def sumGraph (v1 v2 v3 v4 v5 : K) : Store K × Nat :=
  let x1 := newS ([] : Store K) v1
  let x2 := newS x1.1 v2
  let w1 := newS x2.1 v3
  let w2 := newS w1.1 v4
  let b := newS w2.1 v5
  let x1w1 := mulS b.1 x1.2 w1.2
  let x2w2 := mulS x1w1.1 x2.2 w2.2
  let s1 := addS x2w2.1 x1w1.2 x2w2.2
  let s2 := addS s1.1 s1.2 b.2
  (s2.1, s2.2)

/-- Model of `out = tanh(sum)` over the canonical example (node 9). -/
noncomputable def tanhGraph (v1 v2 v3 v4 v5 : ℝ) : Store ℝ × Nat :=
  let s := sumGraph v1 v2 v3 v4 v5
  tanhS realPrims s.1 s.2

/-- The manually composed tanh of `main.rs:81-89`:
`(exp(2*sum) - 1) / (exp(2*sum) + 1)` built from `mul_number`, `exp`,
`add_number` and division over the same five-leaf sum.  Node ids continue
9..20, the result being the final `mul` of the division at 20. -/
noncomputable def manualGraph (v1 v2 v3 v4 v5 : ℝ) : Store ℝ × Nat :=
  let s := sumGraph v1 v2 v3 v4 v5
  let m1 := mulNumber realPrims s.1 s.2 2
  let e1 := expS realPrims m1.1 m1.2
  let n1 := addNumber realPrims e1.1 e1.2 (-1)
  let m2 := mulNumber realPrims n1.1 s.2 2
  let e2 := expS realPrims m2.1 m2.2
  let d1 := addNumber realPrims e2.1 e2.2 1
  divS realPrims d1.1 n1.2 d1.2

/-! ### Claim C9: construction does not mutate operands -/

/-- Every pre-existing node is untouched (data, grad, label, producers). -/
def Preserved (st st2 : Store K) : Prop :=
  ∀ j < st.length, getNode st2 j = getNode st j

/-! ### Real-valued facts: C5 (data of binary operations) and the canonical
tanh example (C2, C7) -/

/-- A single add node over two leaves, `c = a + b`. -/
def addGraph (da db : K) : Store K × Nat :=
  let a := newS ([] : Store K) da
  let b := newS a.1 db
  addS b.1 a.2 b.2

/-- Model of `c = a - b` over two leaves (the negate/add composition of the source). -/
def subGraph (P : Prims K) (da db : K) : Store K × Nat :=
  let a := newS ([] : Store K) da
  let b := newS a.1 db
  subS P b.1 a.2 b.2

/-- Model of `c = a / b` over two leaves (multiplication by `b.pow(-1)`). -/
def divGraph (P : Prims K) (da db : K) : Store K × Nat :=
  let a := newS ([] : Store K) da
  let b := newS a.1 db
  divS P b.1 a.2 b.2

/-- The state of the composite graph after `back_prop` on its root, read
off from one symbolic run of the sweep. -/
noncomputable def manualResult (v1 v2 v3 v4 v5 : ℝ) : Store ℝ :=
  let s := v1 * v3 + v2 * v4 + v5
  let E := Real.exp (s * 2)
  let R1 := (E + 1) ^ (-1 : ℝ)
  let R2 := (E + 1) ^ ((-1:ℝ) - 1)
  let D := -(2 * (E * (R2 * (E + -1)))) + 2 * (E * R1)
  [⟨v1, v3 * D, "", .leaf⟩,
   ⟨v2, v4 * D, "", .leaf⟩,
   ⟨v3, v1 * D, "", .leaf⟩,
   ⟨v4, v2 * D, "", .leaf⟩,
   ⟨v5, D, "", .leaf⟩,
   ⟨v1 * v3, D, "( * )", .mul 0 2⟩,
   ⟨v2 * v4, D, "( * )", .mul 1 3⟩,
   ⟨v1 * v3 + v2 * v4, D, "(( * ) + ( * ))", .add 5 6⟩,
   ⟨s, D, "((( * ) + ( * )) + )", .add 7 4⟩,
   ⟨2, s * (E * R1), "(Constant )", .leaf⟩,
   ⟨s * 2, E * R1, "(((( * ) + ( * )) + ) * (Constant ))", .mul 8 9⟩,
   ⟨E, R1, "exp((((( * ) + ( * )) + ) * (Constant )))", .exp 10⟩,
   ⟨-1, R1, "(Constant )", .leaf⟩,
   ⟨E + -1, R1, "(exp((((( * ) + ( * )) + ) * (Constant ))) + (Constant ))", .add 11 12⟩,
   ⟨2, -(s * (E * (R2 * (E + -1)))), "(Constant )", .leaf⟩,
   ⟨s * 2, -(E * (R2 * (E + -1))), "(((( * ) + ( * )) + ) * (Constant ))", .mul 8 14⟩,
   ⟨E, -(R2 * (E + -1)), "exp((((( * ) + ( * )) + ) * (Constant )))", .exp 15⟩,
   ⟨1, -(R2 * (E + -1)), "(Constant )", .leaf⟩,
   ⟨E + 1, -(R2 * (E + -1)),
     "(exp((((( * ) + ( * )) + ) * (Constant ))) + (Constant ))", .add 16 17⟩,
   ⟨R1, E + -1, "((exp((((( * ) + ( * )) + ) * (Constant ))) + (Constant ))^)",
     .pow 18 (-1)⟩,
   ⟨(E + -1) * R1, 1,
     "((exp((((( * ) + ( * )) + ) * (Constant ))) + (Constant )) * ((exp((((( * ) + ( * )) + ) * (Constant ))) + (Constant ))^))",
     .mul 13 19⟩]

/-! ### Elementary store lemmas -/

theorem getNode_append_lt (st l2 : Store K) (i : Nat) (h : i < st.length) :
    getNode (st ++ l2) i = getNode st i := by
  induction st generalizing i with
  | nil => simp at h
  | cons n st ih =>
      cases i with
      | zero => rfl
      | succ j => simpa [getNode, List.getD] using ih j (by simpa using h)

theorem getNode_set_ne (st : Store K) (i j : Nat) (n : Node K) (h : j ≠ i) :
    getNode (st.set i n) j = getNode st j := by
  induction st generalizing i j with
  | nil => rfl
  | cons m st ih =>
      cases i with
      | zero => cases j with
        | zero => exact absurd rfl h
        | succ j2 => rfl
      | succ i2 => cases j with
        | zero => rfl
        | succ j2 => simpa [getNode, List.getD] using ih i2 j2 (by omega)

theorem getNode_set_eq (st : Store K) (i : Nat) (n : Node K) (h : i < st.length) :
    getNode (st.set i n) i = n := by
  induction st generalizing i with
  | nil => simp at h
  | cons m st ih =>
      cases i with
      | zero => rfl
      | succ j => simpa [getNode, List.getD] using ih j (by simpa using h)

theorem getNode_addGrad (st : Store K) (i j : Nat) (v : K) :
    (getNode (addGrad st i v) j).data = (getNode st j).data ∧
    (getNode (addGrad st i v) j).op = (getNode st j).op ∧
    (getNode (addGrad st i v) j).label = (getNode st j).label := by
  unfold addGrad
  rcases eq_or_ne j i with rfl | h
  · rcases Nat.lt_or_ge j st.length with hl | hl
    · rw [getNode_set_eq st j _ hl]
      exact ⟨rfl, rfl, rfl⟩
    · rw [List.set_eq_of_length_le hl]
      exact ⟨rfl, rfl, rfl⟩
  · rw [getNode_set_ne st i j _ h]
    exact ⟨rfl, rfl, rfl⟩

theorem prodsAt_addGrad (st : Store K) (i j : Nat) (v : K) :
    prodsAt (addGrad st i v) j = prodsAt st j := by
  unfold prodsAt
  rw [(getNode_addGrad st i j v).2.1]

theorem gradAt_addGrad_ne (st : Store K) (i j : Nat) (v : K) (h : j ≠ i) :
    gradAt (addGrad st i v) j = gradAt st j := by
  unfold gradAt addGrad
  rw [getNode_set_ne st i j _ h]

/-- Model of `backStep` leaves every node's `data`, `op` and `label` unchanged: a
backward closure only accumulates into producer `grad` cells. -/
theorem backStep_preserves (P : Prims K) (st : Store K) (n j : Nat) :
    (getNode (backStep P st n) j).data = (getNode st j).data ∧
    (getNode (backStep P st n) j).op = (getNode st j).op ∧
    (getNode (backStep P st n) j).label = (getNode st j).label := by
  unfold backStep
  rcases hop : (getNode st n).op with _ | ⟨a, b⟩ | ⟨a, b⟩ | ⟨a, p⟩ | a | a
  case leaf => exact ⟨rfl, rfl, rfl⟩
  case add =>
    exact ⟨(getNode_addGrad _ _ _ _).1.trans (getNode_addGrad _ _ _ _).1,
      (getNode_addGrad _ _ _ _).2.1.trans (getNode_addGrad _ _ _ _).2.1,
      (getNode_addGrad _ _ _ _).2.2.trans (getNode_addGrad _ _ _ _).2.2⟩
  case mul =>
    exact ⟨(getNode_addGrad _ _ _ _).1.trans (getNode_addGrad _ _ _ _).1,
      (getNode_addGrad _ _ _ _).2.1.trans (getNode_addGrad _ _ _ _).2.1,
      (getNode_addGrad _ _ _ _).2.2.trans (getNode_addGrad _ _ _ _).2.2⟩
  case pow =>
    exact ⟨(getNode_addGrad _ _ _ _).1, (getNode_addGrad _ _ _ _).2.1,
      (getNode_addGrad _ _ _ _).2.2⟩
  case exp =>
    exact ⟨(getNode_addGrad _ _ _ _).1, (getNode_addGrad _ _ _ _).2.1,
      (getNode_addGrad _ _ _ _).2.2⟩
  case tanh =>
    exact ⟨(getNode_addGrad _ _ _ _).1, (getNode_addGrad _ _ _ _).2.1,
      (getNode_addGrad _ _ _ _).2.2⟩

theorem prodsAt_backStep (P : Prims K) (st : Store K) (n j : Nat) :
    prodsAt (backStep P st n) j = prodsAt st j := by
  unfold prodsAt
  rw [(backStep_preserves P st n j).2.1]

/-- A backward closure writes only into the `grad` cells of the node's
producers. -/
theorem gradAt_backStep_ne (P : Prims K) (st : Store K) (n j : Nat)
    (h : j ∉ prodsAt st n) : gradAt (backStep P st n) j = gradAt st j := by
  unfold backStep
  unfold prodsAt at h
  rcases hop : (getNode st n).op with _ | ⟨a, b⟩ | ⟨a, b⟩ | ⟨a, p⟩ | a | a <;>
    rw [hop] at h <;>
    simp only [producersOf, List.mem_cons, List.mem_singleton,
      List.not_mem_nil, not_or] at h ⊢ <;>
    first
      | rfl
      | rw [gradAt_addGrad_ne _ _ _ _ h.2.1, gradAt_addGrad_ne _ _ _ _ h.1]
      | rw [gradAt_addGrad_ne _ _ _ _ h.1]

theorem prodsAt_foldl_backStep (P : Prims K) (l : List Nat) (st : Store K) (j : Nat) :
    prodsAt (l.foldl (backStep P) st) j = prodsAt st j := by
  induction l generalizing st with
  | nil => rfl
  | cons m l ih => rw [List.foldl_cons, ih, prodsAt_backStep]

/-- Processing a list of nodes none of which has `j` as producer leaves
`j`'s grad untouched. -/
theorem gradAt_foldl_backStep (P : Prims K) (l : List Nat) (st : Store K) (j : Nat)
    (h : ∀ m ∈ l, j ∉ prodsAt st m) :
    gradAt (l.foldl (backStep P) st) j = gradAt st j := by
  induction l generalizing st with
  | nil => rfl
  | cons m l ih =>
      rw [List.foldl_cons, ih, gradAt_backStep_ne _ _ _ _ (h m (by simp))]
      intro m2 hm2
      rw [prodsAt_backStep]
      exact h m2 (by simp [hm2])

theorem topoFrom_append (st : Store K) (O : List Nat) :
    ∀ (seen : List Nat) (x : Nat),
      TopoFrom st seen (O ++ [x]) ↔
        TopoFrom st seen O ∧ ∀ p ∈ prodsAt st x, p ∈ seen ++ O := by
  induction O with
  | nil => simp [TopoFrom]
  | cons y O ih =>
      intro seen x
      show ((∀ p ∈ prodsAt st y, p ∈ seen) ∧ TopoFrom st (seen ++ [y]) (O ++ [x])) ↔ _
      rw [ih (seen ++ [y]) x, List.append_assoc, List.singleton_append]
      show _ ↔ ((∀ p ∈ prodsAt st y, p ∈ seen) ∧ TopoFrom st (seen ++ [y]) O) ∧ _
      exact and_assoc.symm

theorem topoFrom_decomp (st : Store K) (l1 : List Nat) :
    ∀ (seen : List Nat) (x : Nat) (l2 : List Nat),
      TopoFrom st seen (l1 ++ x :: l2) → ∀ p ∈ prodsAt st x, p ∈ seen ++ l1 := by
  induction l1 with
  | nil => intro seen x l2 h; simpa using h.1
  | cons y l1 ih =>
      intro seen x l2 h p hp
      have := ih (seen ++ [y]) x l2 h.2 p hp
      simpa [List.mem_append, or_assoc] using this

/-- A set of nodes closed under the producer relation is closed under
reachability. -/
theorem topoFrom_closed (st : Store K) (O : List Nat) (h : TopoFrom st [] O)
    (x y : Nat) (hx : x ∈ O) (hr : Reaches st x y) : y ∈ O := by
  induction hr with
  | refl => exact hx
  | tail _ hstep ih =>
      rcases List.append_of_mem ih with ⟨l1, l2, rfl⟩
      have hc := topoFrom_decomp st l1 [] _ l2 h _ hstep
      simp only [List.nil_append] at hc
      exact List.mem_append.2 (Or.inl hc)

theorem VisitOut.trans {st : Store K} {V O V1 O1 V2 O2 : List Nat}
    (h1 : VisitOut st V O V1 O1) (h2 : VisitOut st V1 O1 V2 O2) :
    VisitOut st V O V2 O2 where
  monoV v hv := h2.monoV v (h1.monoV v hv)
  monoO x hx := h2.monoO x (h1.monoO x hx)
  grayNew v hv hno :=
    have h := h2.grayNew v hv hno
    h1.grayNew v h.1 h.2
  grayOld v hv hno := h2.grayOld v (h1.monoV v hv) (h1.grayOld v hv hno)
  nodup := h2.nodup
  sub := h2.sub
  topo := h2.topo

/-- The loop part of the DFS invariant proof, assuming the one-node case for
the smaller fuel. -/
theorem visitFold_spec (st : Store K) (fuel : Nat)
    (IH : ∀ i V O, i < fuel → i < st.length → VisitIn st V O (i + 1) →
      (i ∈ V → i ∈ O) → VOutS st i V O (visit st fuel (V, O) i)) :
    ∀ (cs : List Nat) (b : Nat) (V O : List Nat),
      (∀ c ∈ cs, c < fuel ∧ c < st.length ∧ c < b) → VisitIn st V O b →
      VOutL st cs V O (cs.foldl (visit st fuel) (V, O)) := by
  intro cs
  induction cs with
  | nil =>
      intro b V O _ hin
      refine ⟨⟨fun v hv => hv, fun x hx => hx, fun v hv hno => ⟨hv, hno⟩,
        fun v _ hno => hno, hin.nodup, hin.sub, hin.topo⟩, ?_, ?_, ?_⟩
      · intro c hc; exact absurd hc (List.not_mem_nil c)
      · rintro x ⟨c, hc, -⟩; exact absurd hc (List.not_mem_nil c)
      · intro x hx; exact Or.inl hx
  | cons c cs ihl =>
      intro b V O hcs hin
      have hc := hcs c (by simp)
      have hcV : c ∈ V → c ∈ O := by
        intro hv
        by_contra hno
        exact absurd (hin.gray c hv hno) (by omega)
      have hs := IH c V O hc.1 hc.2.1
        ⟨hin.nodup, hin.sub, fun v hv hno => le_trans (by omega) (hin.gray v hv hno),
          hin.topo⟩ hcV
      set r1 := visit st fuel (V, O) c with hr1
      have hin1 : VisitIn st r1.1 r1.2 b :=
        ⟨hs.1.nodup, hs.1.sub,
          fun v hv hno => hin.gray v (hs.1.grayNew v hv hno).1 (hs.1.grayNew v hv hno).2,
          hs.1.topo⟩
      have hl := ihl b r1.1 r1.2 (fun c2 hc2 => hcs c2 (by simp [hc2])) hin1
      rw [List.foldl_cons]
      refine ⟨hs.1.trans hl.1, ?_, ?_, ?_⟩
      · intro c2 hc2
        rcases List.mem_cons.1 hc2 with rfl | hc2
        · exact hl.1.monoV _ hs.2.1
        · exact hl.2.1 c2 hc2
      · rintro x ⟨c2, hc2, hr⟩
        rcases List.mem_cons.1 hc2 with rfl | hc2
        · exact hl.1.monoV x (hs.2.2.1 x hr)
        · exact hl.2.2.1 x ⟨c2, hc2, hr⟩
      · intro x hx
        rcases hl.2.2.2 x hx with hx1 | ⟨c2, hc2, hr⟩
        · rcases hs.2.2.2 x hx1 with hx2 | hr
          · exact Or.inl hx2
          · exact Or.inr ⟨c, by simp, hr⟩
        · exact Or.inr ⟨c2, by simp [hc2], hr⟩

/-- Full correctness of one `visit` call on a well-formed store. -/
theorem visit_spec (st : Store K) (hWF : WF st) :
    ∀ (fuel : Nat) (i : Nat) (V O : List Nat), i < fuel → i < st.length →
      VisitIn st V O (i + 1) → (i ∈ V → i ∈ O) →
      VOutS st i V O (visit st fuel (V, O) i) := by
  intro fuel
  induction fuel with
  | zero => intro i V O hf; omega
  | succ fuel ih =>
      intro i V O hf hlen hin hiVO
      by_cases hiV : i ∈ V
      · have hres : visit st (fuel + 1) (V, O) i = (V, O) := by
          simp [visit, hiV]
        rw [hres]
        have hiO := hiVO hiV
        refine ⟨⟨fun v hv => hv, fun x hx => hx, fun v hv hno => ⟨hv, hno⟩,
          fun v _ hno => hno, hin.nodup, hin.sub, hin.topo⟩, hiV, ?_, ?_⟩
        · intro x hr
          exact hin.sub x (topoFrom_closed st O hin.topo i x hiO hr)
        · intro x hx; exact Or.inl hx
      · have hres : visit st (fuel + 1) (V, O) i =
            (((prodsAt st i).foldl (visit st fuel) (i :: V, O)).1,
             ((prodsAt st i).foldl (visit st fuel) (i :: V, O)).2 ++ [i]) := by
          simp [visit, hiV]
        rw [hres]
        have hiO : i ∉ O := fun hO => hiV (hin.sub i hO)
        have hin1 : VisitIn st (i :: V) O i :=
          ⟨hin.nodup, fun x hx => List.mem_cons_of_mem i (hin.sub x hx),
            fun v hv hno => by
              rcases List.mem_cons.1 hv with rfl | hv
              · exact le_refl v
              · exact le_trans (by omega) (hin.gray v hv hno),
            hin.topo⟩
        have hchild : ∀ c ∈ prodsAt st i, c < fuel ∧ c < st.length ∧ c < i := by
          intro c hc
          have hci : c < i := hWF i hlen c hc
          exact ⟨by omega, by omega, hci⟩
        have hl := visitFold_spec st fuel (fun j V2 O2 hj hjlen hin2 hj2 =>
          ih j V2 O2 hj hjlen hin2 hj2) (prodsAt st i) i (i :: V) O hchild hin1
        set r := (prodsAt st i).foldl (visit st fuel) (i :: V, O) with hr
        -- the producers of i are all ordered after the loop
        have hprodO : ∀ c ∈ prodsAt st i, c ∈ r.2 := by
          intro c hc
          have hcr : c ∈ r.1 := hl.2.1 c hc
          by_contra hno
          have hg := hl.1.grayNew c hcr hno
          rcases List.mem_cons.1 hg.1 with rfl | hcv
          · exact absurd (hWF _ hlen _ hc) (lt_irrefl _)
          · have := hin.gray c hcv hg.2
            have hci := hWF i hlen c hc
            omega
        have hiO2 : i ∉ r.2 := hl.1.grayOld i (by simp) hiO
        refine ⟨⟨?_, ?_, ?_, ?_, ?_, ?_, ?_⟩, ?_, ?_, ?_⟩
        · intro v hv; exact hl.1.monoV v (List.mem_cons_of_mem i hv)
        · intro x hx; exact List.mem_append_left _ (hl.1.monoO x hx)
        · intro v hv hno
          simp only [List.mem_append, List.mem_singleton, not_or] at hno
          have hg := hl.1.grayNew v hv hno.1
          rcases List.mem_cons.1 hg.1 with rfl | hvv
          · exact absurd rfl hno.2
          · exact ⟨hvv, hg.2⟩
        · intro v hv hno
          simp only [List.mem_append, List.mem_singleton, not_or]
          refine ⟨hl.1.grayOld v (List.mem_cons_of_mem i hv) hno, ?_⟩
          rintro rfl; exact hiV hv
        · exact List.Nodup.append hl.1.nodup (List.nodup_singleton i)
            (by intro x hx hx2; rw [List.mem_singleton] at hx2; subst hx2; exact hiO2 hx)
        · intro x hx
          rcases List.mem_append.1 hx with hx | hx
          · exact hl.1.sub x hx
          · rw [List.mem_singleton] at hx; subst hx
            exact hl.1.monoV x (by simp)
        · rw [topoFrom_append]
          exact ⟨hl.1.topo, fun p hp => by simpa using hprodO p hp⟩
        · exact hl.1.monoV i (by simp)
        · intro x hr2
          rcases Relation.ReflTransGen.cases_head hr2 with rfl | ⟨c, hc, hr3⟩
          · exact hl.1.monoV _ (by simp)
          · exact hl.2.2.1 x ⟨c, hc, hr3⟩
        · intro x hx
          rcases hl.2.2.2 x hx with hx1 | ⟨c, hc, hr3⟩
          · rcases List.mem_cons.1 hx1 with rfl | hx2
            · exact Or.inr Relation.ReflTransGen.refl
            · exact Or.inl hx2
          · exact Or.inr (Relation.ReflTransGen.head hc hr3)

theorem getNode_setGrad (st : Store K) (i j : Nat) (v : K) :
    (getNode (setGrad st i v) j).data = (getNode st j).data ∧
    (getNode (setGrad st i v) j).op = (getNode st j).op ∧
    (getNode (setGrad st i v) j).label = (getNode st j).label := by
  unfold setGrad
  rcases eq_or_ne j i with rfl | h
  · rcases Nat.lt_or_ge j st.length with hl | hl
    · rw [getNode_set_eq st j _ hl]
      exact ⟨rfl, rfl, rfl⟩
    · rw [List.set_eq_of_length_le hl]
      exact ⟨rfl, rfl, rfl⟩
  · rw [getNode_set_ne st i j _ h]
    exact ⟨rfl, rfl, rfl⟩

theorem prodsAt_setGrad (st : Store K) (i j : Nat) (v : K) :
    prodsAt (setGrad st i v) j = prodsAt st j := by
  unfold prodsAt
  rw [(getNode_setGrad st i j v).2.1]

/-- The traversal of `back_prop`, started on an empty visited set, returns
an ordering that lists each node reachable from the root exactly once, with
every node after its producers. -/
theorem backOrder_spec (st : Store K) (hWF : WF st) (root : Nat)
    (hroot : root < st.length) :
    (backOrder st root).Nodup ∧
    (∀ x, x ∈ backOrder st root ↔ Reaches st root x) ∧
    TopoFrom st [] (backOrder st root) := by
  have hin : VisitIn st [] [] (root + 1) :=
    ⟨List.nodup_nil, fun x hx => absurd hx (List.not_mem_nil x),
     fun v hv => absurd hv (List.not_mem_nil v), trivial⟩
  have hs := visit_spec st hWF (st.length + 1) root [] [] (by omega) hroot hin
    (fun h => absurd h (List.not_mem_nil root))
  refine ⟨hs.1.nodup, ?_, hs.1.topo⟩
  intro x
  constructor
  · intro hx
    rcases hs.2.2.2 x (hs.1.sub x hx) with hx2 | hr
    · exact absurd hx2 (List.not_mem_nil x)
    · exact hr
  · intro hr
    have hx := hs.2.2.1 x hr
    by_contra hno
    exact absurd (hs.1.grayNew x hx hno).1 (List.not_mem_nil x)

/-- In a duplicate-free topologically sorted ordering `S ++ n :: G`, the
node `n` is not a producer of itself nor of anything in `S` (everything
before it). -/
theorem topo_not_producer (st : Store K) (S G : List Nat) (n : Nat)
    (htopo : TopoFrom st [] (S ++ n :: G)) (hnd : (S ++ n :: G).Nodup) :
    n ∉ prodsAt st n ∧ ∀ m ∈ S, n ∉ prodsAt st m := by
  have hnS : n ∉ S := by
    intro hin
    have hd := List.disjoint_of_nodup_append hnd
    exact hd hin (by simp)
  constructor
  · intro hp
    have := topoFrom_decomp st S [] n G htopo n hp
    simp only [List.nil_append] at this
    exact hnS this
  · intro m hm hp
    rcases List.append_of_mem hm with ⟨s1, s2, rfl⟩
    have hd : (s1 ++ m :: s2) ++ n :: G = s1 ++ m :: (s2 ++ n :: G) := by
      simp
    rw [hd] at htopo
    have := topoFrom_decomp st s1 [] m (s2 ++ n :: G) htopo n hp
    simp only [List.nil_append] at this
    exact hnS (by simp [this])

/-- Every consumer of `n` inside the ordering lies strictly after `n`
(so, in the reversed processing order, strictly before it). -/
theorem topo_consumers_after (st : Store K) (S G : List Nat) (n : Nat)
    (htopo : TopoFrom st [] (S ++ n :: G)) (hnd : (S ++ n :: G).Nodup)
    (m : Nat) (hm : m ∈ S ++ n :: G) (hp : n ∈ prodsAt st m) : m ∈ G := by
  have h := topo_not_producer st S G n htopo hnd
  rcases List.mem_append.1 hm with hmS | hmG
  · exact absurd hp (h.2 m hmS)
  · rcases List.mem_cons.1 hmG with rfl | hmG
    · exact absurd hp h.1
    · exact hmG

/-- Once the reverse sweep of `back_prop` has processed a node, no later
step modifies that node's grad: the remaining nodes are all earlier in the
topological order, so the node is not a producer of any of them. -/
theorem backProp_grad_final (P : Prims K) (st : Store K) (hWF : WF st)
    (root : Nat) (hroot : root < st.length) (pre suf : List Nat) (n : Nat)
    (hdec : (backOrder st root).reverse = pre ++ n :: suf) :
    gradAt (backProp P st root) n
      = gradAt ((pre ++ [n]).foldl (backStep P) (setGrad st root 1)) n ∧
    gradAt ((pre ++ [n]).foldl (backStep P) (setGrad st root 1)) n
      = gradAt (pre.foldl (backStep P) (setGrad st root 1)) n := by
  obtain ⟨hnd, -, htopo⟩ := backOrder_spec st hWF root hroot
  have hord : backOrder st root = suf.reverse ++ n :: pre.reverse := by
    have := congrArg List.reverse hdec
    simpa [List.reverse_append] using this
  rw [hord] at hnd htopo
  have hnp := topo_not_producer st suf.reverse pre.reverse n htopo hnd
  have hsuf : ∀ m ∈ suf, n ∉ prodsAt st m := by
    intro m hm
    exact hnp.2 m (List.mem_reverse.2 hm)
  -- producer lists are unchanged along the whole sweep
  have hfoldprods : ∀ (l : List Nat) (j : Nat),
      prodsAt (l.foldl (backStep P) (setGrad st root 1)) j = prodsAt st j := by
    intro l j
    rw [prodsAt_foldl_backStep, prodsAt_setGrad]
  set s0 := setGrad st root 1 with hs0
  have hsplit : backProp P st root = suf.foldl (backStep P) ((pre ++ [n]).foldl (backStep P) s0) := by
    show (backOrder st root).reverse.foldl (backStep P) s0 = _
    rw [hdec, show pre ++ n :: suf = (pre ++ [n]) ++ suf by simp, List.foldl_append]
  have hstep : (pre ++ [n]).foldl (backStep P) s0
      = backStep P (pre.foldl (backStep P) s0) n := by
    rw [List.foldl_append]
    rfl
  constructor
  · rw [hsplit]
    apply gradAt_foldl_backStep
    intro m hm
    rw [hfoldprods (pre ++ [n]) m]
    exact hsuf m hm
  · rw [hstep]
    apply gradAt_backStep_ne
    rw [hfoldprods]
    exact hnp.1

/-! ### The neural-network consumer (`src/nn.rs`)

A `Neuron` is its list of weight handles and its bias handle; a `Layer` is a
list of neurons; an MLP is a list of layers.  Random initialization is299
outside the embedded fragment: the claims quantify over arbitrary
already-allocated parameter nodes. -/

theorem getNode_append_len (st : Store K) (n : Node K) (l2 : Store K) :
    getNode (st ++ n :: l2) st.length = n := by
  induction st with
  | nil => rfl
  | cons m st ih => simpa [getNode, List.getD] using ih

theorem getNode_pushNode_lt (st : Store K) (n : Node K) (j : Nat)
    (h : j < st.length) : getNode (pushNode st n).1 j = getNode st j :=
  getNode_append_lt st [n] j h

theorem getNode_pushNode_len (st : Store K) (n : Node K) :
    getNode (pushNode st n).1 st.length = n :=
  getNode_append_len st n []

theorem pushNode_len (st : Store K) (n : Node K) :
    (pushNode st n).1.length = st.length + 1 := by
  simp [pushNode]

theorem dataAt_mulS (st : Store K) (a b : Nat) :
    dataAt (mulS st a b).1 (mulS st a b).2 = dataAt st a * dataAt st b := by
  show (getNode (pushNode st _).1 st.length).data = _
  rw [getNode_pushNode_len]

theorem dataAt_addS (st : Store K) (a b : Nat) :
    dataAt (addS st a b).1 (addS st a b).2 = dataAt st a + dataAt st b := by
  show (getNode (pushNode st _).1 st.length).data = _
  rw [getNode_pushNode_len]

theorem neuronsForward_arg (P : Prims K) (inputs : List Nat) (st : Store K)
    (nw : List Nat × Nat) (rest : List (List Nat × Nat)) (s : String)
    (h : (neuronForward P st nw.1 nw.2 inputs).1 = .error s) :
    neuronsForward P inputs st (nw :: rest) = none := by
  unfold neuronsForward
  rcases hr : neuronForward P st nw.1 nw.2 inputs with ⟨e, st2⟩
  rw [hr] at h
  cases e with
  | error m => simp
  | ok o => simp at h

/-- The accumulation loop: allocates two nodes per weight/input pair,
leaves the pre-existing graph untouched, and its result node's data is the
left fold of products over the pair list, started at the bias data. -/
theorem neuronSum_spec (l : List (Nat × Nat)) :
    ∀ (st : Store K) (b : Nat), b < st.length →
      (∀ p ∈ l, p.1 < st.length ∧ p.2 < st.length) →
      (neuronSum st b l).1.length = st.length + 2 * l.length ∧
      (neuronSum st b l).2 < (neuronSum st b l).1.length ∧
      (∀ j < st.length, getNode (neuronSum st b l).1 j = getNode st j) ∧
      dataAt (neuronSum st b l).1 (neuronSum st b l).2
        = l.foldl (fun a p => a + dataAt st p.1 * dataAt st p.2) (dataAt st b) := by
  induction l with
  | nil =>
      intro st b hb _
      exact ⟨by simp [neuronSum], by simpa [neuronSum] using hb,
        fun j hj => rfl, rfl⟩
  | cons x l ih =>
      intro st b hb hl
      have hx := hl x (by simp)
      set m := mulS st x.1 x.2 with hm
      set a := addS m.1 b m.2 with ha
      have hmlen : m.1.length = st.length + 1 := pushNode_len st _
      have halen : a.1.length = st.length + 2 := by
        have h1 : a.1.length = m.1.length + 1 := pushNode_len m.1 _
        omega
      have ha2 : a.2 = st.length + 1 := by
        show m.1.length = st.length + 1
        exact hmlen
      have hpres : ∀ j < st.length, getNode a.1 j = getNode st j := by
        intro j hj
        have h1 : getNode a.1 j = getNode m.1 j :=
          getNode_pushNode_lt m.1 _ j (by omega)
        rw [h1]
        exact getNode_pushNode_lt st _ j hj
      have hdata : dataAt a.1 a.2 = dataAt st b + dataAt st x.1 * dataAt st x.2 := by
        have h1 : dataAt a.1 a.2 = dataAt m.1 b + dataAt m.1 m.2 := dataAt_addS m.1 b m.2
        have h2 : dataAt m.1 b = dataAt st b :=
          congrArg Node.data (getNode_pushNode_lt st _ b hb)
        have h3 : dataAt m.1 m.2 = dataAt st x.1 * dataAt st x.2 := dataAt_mulS st x.1 x.2
        rw [h1, h2, h3]
      have hstep : neuronSum st b (x :: l) = neuronSum a.1 a.2 l := rfl
      have hl2 : ∀ p ∈ l, p.1 < a.1.length ∧ p.2 < a.1.length := by
        intro p hp
        have := hl p (by simp [hp])
        omega
      have hih := ih a.1 a.2 (by omega) hl2
      rw [hstep]
      refine ⟨by rw [hih.1]; simp only [List.length_cons]; omega, hih.2.1, ?_, ?_⟩
      · intro j hj
        rw [hih.2.2.1 j (by omega), hpres j hj]
      · rw [hih.2.2.2]
        have hfold : l.foldl (fun g p => g + dataAt a.1 p.1 * dataAt a.1 p.2) (dataAt a.1 a.2)
            = l.foldl (fun g p => g + dataAt st p.1 * dataAt st p.2) (dataAt a.1 a.2) := by
          apply List.foldl_ext
          intro g p hp
          have h1 : dataAt a.1 p.1 = dataAt st p.1 := by
            unfold dataAt; rw [hpres p.1 (hl p (by simp [hp])).1]
          have h2 : dataAt a.1 p.2 = dataAt st p.2 := by
            unfold dataAt; rw [hpres p.2 (hl p (by simp [hp])).2]
          rw [h1, h2]
        rw [hfold, hdata]
        rfl

/-! ### Claims C3, C4, C6 -/

/-- Claim **C3**: for every leaf Scalar `a`, if `c = a + a` (the same node used as
both operands) and the backward pass is run on `c`, then afterwards
`a.grad = 2` and `c.grad = 1`: the shared node is visited once by the
traversal (it appears once in the recorded ordering) but receives one
gradient contribution per use. -/
theorem reuse_add_grads {K : Type} [CommRing K] (P : Prims K) (da : K) :
    backOrder (reuseGraph da).1 (reuseGraph da).2 = [0, 1] ∧
    gradAt (backProp P (reuseGraph da).1 (reuseGraph da).2) 0 = 2 ∧
    gradAt (backProp P (reuseGraph da).1 (reuseGraph da).2) 1 = 1 := by
  refine ⟨?_, ?_, ?_⟩ <;>
    (conv_lhs => simp [backProp, backOrder, reuseGraph, newS, addS, pushNode, visit,
      prodsAt, producersOf, getNode, backStep, addGrad, setGrad, gradAt, dataAt,
      List.getD]) <;>
    norm_num

/-- Claim **C4**: the multiply backward closure reads the operands' data at
backward-invocation time.  Mutating `a.data` to `da2` and `b.data` to `db2`
after `c = a * b` was built but before the backward pass makes the
contributions `a.grad += db2 * c.grad` and `b.grad += da2 * c.grad`, while
`c.data` keeps the stale eagerly computed `da * db`. -/
theorem mul_backward_reads_current_data {K : Type} [CommRing K] (P : Prims K)
    (da db da2 db2 : K) :
    gradAt (backProp P (setData (setData (mulGraph da db).1 0 da2) 1 db2) 2) 0 = db2 ∧
    gradAt (backProp P (setData (setData (mulGraph da db).1 0 da2) 1 db2) 2) 1 = da2 ∧
    dataAt (backProp P (setData (setData (mulGraph da db).1 0 da2) 1 db2) 2) 2 = da * db := by
  refine ⟨?_, ?_, ?_⟩ <;>
    (conv_lhs => simp [backProp, backOrder, mulGraph, newS, mulS, pushNode, visit,
      prodsAt, producersOf, getNode, backStep, addGrad, setGrad, setData, gradAt,
      dataAt, List.getD]) <;>
    ring

/-- Claim **C6 (counterexample)**: in the two-level chain `s2 = (a + b) + e` with
`a = 3`, `b = 4`, `e = 5`, running the backward pass twice without zeroing
leaves `a.grad = 3`, not twice its single-pass value `1`. -/
theorem double_backward_not_double :
    ¬ (gradAt (backProp intPrims (backProp intPrims (chainGraph (3:ℤ) 4 5).1 4) 4) 0
        = 2 * gradAt (backProp intPrims (chainGraph (3:ℤ) 4 5).1 4) 0) := by
  decide

/-- The chain graph as a literal store. -/
theorem chainGraph_store {K : Type} [CommRing K] (da db de : K) :
    (chainGraph da db de).1 = [
      ⟨da, 0, "", .leaf⟩, ⟨db, 0, "", .leaf⟩, ⟨da + db, 0, "( + )", .add 0 1⟩,
      ⟨de, 0, "", .leaf⟩, ⟨da + db + de, 0, "(( + ) + )", .add 2 3⟩] := by
  simp [chainGraph, newS, addS, pushNode, getNode, dataAt, labelAt, List.getD]

theorem chainGraph_once {K : Type} [CommRing K] (P : Prims K) (da db de : K) :
    backProp P (chainGraph da db de).1 4 = [
      ⟨da, 1, "", .leaf⟩, ⟨db, 1, "", .leaf⟩, ⟨da + db, 1, "( + )", .add 0 1⟩,
      ⟨de, 1, "", .leaf⟩, ⟨da + db + de, 1, "(( + ) + )", .add 2 3⟩] := by
  rw [chainGraph_store]
  simp [backProp, backOrder, visit, prodsAt, producersOf, getNode, backStep,
    addGrad, setGrad, gradAt, dataAt, List.getD]

theorem chainGraph_twice {K : Type} [CommRing K] (P : Prims K) (da db de : K) :
    backProp P (backProp P (chainGraph da db de).1 4) 4 = [
      ⟨da, 3, "", .leaf⟩, ⟨db, 3, "", .leaf⟩, ⟨da + db, 2, "( + )", .add 0 1⟩,
      ⟨de, 2, "", .leaf⟩, ⟨da + db + de, 1, "(( + ) + )", .add 2 3⟩] := by
  rw [chainGraph_once]
  simp [backProp, backOrder, visit, prodsAt, producersOf, getNode, backStep,
    addGrad, setGrad, gradAt, dataAt, List.getD]
  norm_num

/-- Claim **C6 (amended)**: running the backward pass twice on the same root
without zeroing accumulates instead of doubling: in the chain
`s2 = (a + b) + e`, a single pass gives every node grad 1; after a second
pass the root is re-seeded to 1 (not doubled), the root's direct producers
`s1` and `e` are exactly doubled, and the deeper leaves `a`, `b` end at 3×
their single-pass grads, because the second sweep re-propagates the
already-accumulated grads. -/
theorem double_backward_accumulates {K : Type} [CommRing K] (P : Prims K)
    (da db de : K) :
    gradAt (backProp P (chainGraph da db de).1 4) 4 = 1 ∧
    gradAt (backProp P (chainGraph da db de).1 4) 2 = 1 ∧
    gradAt (backProp P (chainGraph da db de).1 4) 3 = 1 ∧
    gradAt (backProp P (chainGraph da db de).1 4) 0 = 1 ∧
    gradAt (backProp P (chainGraph da db de).1 4) 1 = 1 ∧
    gradAt (backProp P (backProp P (chainGraph da db de).1 4) 4) 4 = 1 ∧
    gradAt (backProp P (backProp P (chainGraph da db de).1 4) 4) 2 = 2 ∧
    gradAt (backProp P (backProp P (chainGraph da db de).1 4) 4) 3 = 2 ∧
    gradAt (backProp P (backProp P (chainGraph da db de).1 4) 4) 0 = 3 ∧
    gradAt (backProp P (backProp P (chainGraph da db de).1 4) 4) 1 = 3 := by
  rw [chainGraph_twice, chainGraph_once]
  refine ⟨?_, ?_, ?_, ?_, ?_, ?_, ?_, ?_, ?_, ?_⟩ <;>
    simp [gradAt, getNode, List.getD]

theorem preserved_pushNode (st : Store K) (n : Node K) :
    Preserved st (pushNode st n).1 :=
  fun j hj => getNode_pushNode_lt st n j hj

theorem preserved_trans {st st2 st3 : Store K} (h1 : Preserved st st2)
    (h2 : Preserved st2 st3) (hl : st.length ≤ st2.length) : Preserved st st3 :=
  fun j hj => (h2 j (lt_of_lt_of_le hj hl)).trans (h1 j hj)

theorem setLabel_length (st : Store K) (i : Nat) (l : String) :
    (setLabel st i l).length = st.length := by
  simp [setLabel]

theorem preserved_setLabel {st st2 : Store K} (i : Nat) (l : String)
    (h : Preserved st st2) (hi : st.length ≤ i) :
    Preserved st (setLabel st2 i l) := by
  intro j hj
  unfold setLabel
  rw [getNode_set_ne st2 i j _ (by omega)]
  exact h j hj

theorem preserved_refl (st : Store K) : Preserved st st := fun _ _ => rfl

theorem newS_length (st : Store K) (k : K) : (newS st k).1.length = st.length + 1 :=
  pushNode_len st _

theorem addNumber_preserves (P : Prims K) (st : Store K) (a : Nat) (k : K) :
    Preserved st (addNumber P st a k).1 ∧
      (addNumber P st a k).1.length = st.length + 2 := by
  constructor
  · exact preserved_trans (preserved_setLabel _ _ (preserved_pushNode st _) le_rfl)
      (preserved_pushNode _ _) (by rw [setLabel_length, pushNode_len]; omega)
  · show (pushNode _ _).1.length = _
    rw [pushNode_len, setLabel_length, newS_length]

theorem mulNumber_preserves (P : Prims K) (st : Store K) (a : Nat) (k : K) :
    Preserved st (mulNumber P st a k).1 ∧
      (mulNumber P st a k).1.length = st.length + 2 := by
  constructor
  · exact preserved_trans (preserved_setLabel _ _ (preserved_pushNode st _) le_rfl)
      (preserved_pushNode _ _) (by rw [setLabel_length, pushNode_len]; omega)
  · show (pushNode _ _).1.length = _
    rw [pushNode_len, setLabel_length, newS_length]

theorem negS_preserves (P : Prims K) (st : Store K) (a : Nat) :
    Preserved st (negS P st a).1 ∧ (negS P st a).1.length = st.length + 2 := by
  have h := mulNumber_preserves P st a (-1)
  constructor
  · exact preserved_setLabel _ _ h.1 (by
      show st.length ≤ (mulNumber P st a (-1)).2
      have : (mulNumber P st a (-1)).2 = st.length + 1 := by
        show (setLabel (newS st (-1)).1 _ _).length = st.length + 1
        rw [setLabel_length, newS_length]
      omega)
  · show (setLabel _ _ _).length = _
    rw [setLabel_length, h.2]

theorem subS_preserves (P : Prims K) (st : Store K) (a b : Nat) :
    Preserved st (subS P st a b).1 := by
  have hn := negS_preserves P st b
  refine preserved_setLabel _ _ ?_ ?_
  · exact preserved_trans hn.1 (preserved_pushNode _ _) (by omega)
  · show st.length ≤ (negS P st b).1.length
    omega

/-! ### Wellformedness of constructor-built stores

Every store produced by the `Scalar` constructors satisfies `WF`: each
operation allocates its node after its operands, so producer indices are
strictly smaller than the producing node's own index. This discharges the
`WF` hypothesis of the backward-pass theorems for every graph the program
can actually build. -/

theorem WF_pushNode {st : Store K} {n : Node K} (h : WF st)
    (hn : ∀ p ∈ producersOf n.op, p < st.length) : WF (pushNode st n).1 := by
  intro i hi p hp
  rw [pushNode_len] at hi
  rcases Nat.lt_or_ge i st.length with hlt | hge
  · refine h i hlt p ?_
    simpa [prodsAt, getNode_pushNode_lt st n i hlt] using hp
  · have hew : i = st.length := by omega
    subst hew
    refine hn p ?_
    simpa [prodsAt, getNode_pushNode_len] using hp

theorem WF_newS {st : Store K} (h : WF st) (x : K) : WF (newS st x).1 :=
  WF_pushNode h (fun _ hp => by simp [producersOf] at hp)

theorem WF_addS {st : Store K} {a b : Nat} (h : WF st)
    (ha : a < st.length) (hb : b < st.length) : WF (addS st a b).1 :=
  WF_pushNode h (fun p hp => by
    rcases (by simpa [producersOf] using hp : p = a ∨ p = b) with rfl | rfl
    · exact ha
    · exact hb)

theorem WF_mulS {st : Store K} {a b : Nat} (h : WF st)
    (ha : a < st.length) (hb : b < st.length) : WF (mulS st a b).1 :=
  WF_pushNode h (fun p hp => by
    rcases (by simpa [producersOf] using hp : p = a ∨ p = b) with rfl | rfl
    · exact ha
    · exact hb)

theorem WF_powS (P : Prims K) {st : Store K} {a : Nat} (h : WF st)
    (ha : a < st.length) (q : K) : WF (powS P st a q).1 :=
  WF_pushNode h (fun p hp => by
    have hpa : p = a := by simpa [producersOf] using hp
    subst hpa; exact ha)

theorem WF_expS (P : Prims K) {st : Store K} {a : Nat} (h : WF st)
    (ha : a < st.length) : WF (expS P st a).1 :=
  WF_pushNode h (fun p hp => by
    have hpa : p = a := by simpa [producersOf] using hp
    subst hpa; exact ha)

theorem WF_tanhS (P : Prims K) {st : Store K} {a : Nat} (h : WF st)
    (ha : a < st.length) : WF (tanhS P st a).1 :=
  WF_pushNode h (fun p hp => by
    have hpa : p = a := by simpa [producersOf] using hp
    subst hpa; exact ha)

theorem WF_set_op {st : Store K} (h : WF st) (i : Nat) (m : Node K)
    (hop : m.op = (getNode st i).op) : WF (st.set i m) := by
  intro j hj p hp
  rw [List.length_set] at hj
  by_cases hji : j = i
  · subst hji
    have he : prodsAt (st.set j m) j = prodsAt st j := by
      unfold prodsAt
      rw [getNode_set_eq st j m hj, hop]
    rw [he] at hp
    exact h j hj p hp
  · have he : prodsAt (st.set i m) j = prodsAt st j := by
      unfold prodsAt
      rw [getNode_set_ne st i j m hji]
    rw [he] at hp
    exact h j hj p hp

theorem WF_setLabel {st : Store K} (h : WF st) (i : Nat) (l : String) :
    WF (setLabel st i l) := WF_set_op h i _ rfl

theorem WF_setData {st : Store K} (h : WF st) (i : Nat) (v : K) :
    WF (setData st i v) := WF_set_op h i _ rfl

theorem WF_setGrad {st : Store K} (h : WF st) (i : Nat) (v : K) :
    WF (setGrad st i v) := WF_set_op h i _ rfl

theorem WF_addGrad {st : Store K} (h : WF st) (i : Nat) (v : K) :
    WF (addGrad st i v) := WF_set_op h i _ rfl

theorem WF_addNumber (P : Prims K) {st : Store K} {a : Nat} (h : WF st)
    (ha : a < st.length) (k : K) : WF (addNumber P st a k).1 := by
  refine WF_addS (WF_setLabel (WF_newS h k) _ _) ?_ ?_
  · rw [setLabel_length, newS_length]; omega
  · show (newS st k).2 < _
    rw [setLabel_length, newS_length]
    show st.length < st.length + 1
    omega

theorem WF_mulNumber (P : Prims K) {st : Store K} {a : Nat} (h : WF st)
    (ha : a < st.length) (k : K) : WF (mulNumber P st a k).1 := by
  refine WF_mulS (WF_setLabel (WF_newS h k) _ _) ?_ ?_
  · rw [setLabel_length, newS_length]; omega
  · show (newS st k).2 < _
    rw [setLabel_length, newS_length]
    show st.length < st.length + 1
    omega

theorem WF_negS (P : Prims K) {st : Store K} {a : Nat} (h : WF st)
    (ha : a < st.length) : WF (negS P st a).1 :=
  WF_setLabel (WF_mulNumber P h ha (-1)) _ _

theorem WF_subS (P : Prims K) {st : Store K} {a b : Nat} (h : WF st)
    (ha : a < st.length) (hb : b < st.length) : WF (subS P st a b).1 := by
  refine WF_setLabel (WF_addS (WF_negS P h hb) ?_ ?_) _ _
  · show a < (setLabel _ _ _).length
    rw [setLabel_length]
    show a < (pushNode _ _).1.length
    rw [pushNode_len, setLabel_length, newS_length]
    omega
  · show (mulNumber P st b (-1)).2 < (negS P st b).1.length
    rw [(negS_preserves P st b).2]
    show (pushNode _ _).2 < st.length + 2
    show (setLabel (newS st (-1)).1 _ _).length < st.length + 2
    rw [setLabel_length, newS_length]
    omega

theorem WF_divS (P : Prims K) {st : Store K} {a b : Nat} (h : WF st)
    (ha : a < st.length) (hb : b < st.length) : WF (divS P st a b).1 := by
  refine WF_mulS (WF_powS P h hb (-1)) ?_ ?_
  · show a < (pushNode _ _).1.length
    rw [pushNode_len]; omega
  · show (powS P st b (-1)).2 < (powS P st b (-1)).1.length
    show st.length < (pushNode _ _).1.length
    rw [pushNode_len]; omega

/-- Claim **C9**: constructing a derived Scalar by any operation leaves both
operands' nodes — indeed every pre-existing node — exactly as they were
(data, grad, label and producers all unchanged), because every operation
only allocates new nodes at fresh indices; and `set_label` changes only its
own node's label, leaving its data, grad and producers, and all other
nodes, untouched. -/
theorem construction_frame {K : Type} [CommRing K] (P : Prims K) (st : Store K)
    (a b : Nat) (p k : K) (l : String) (i : Nat) :
    Preserved st (newS st k).1 ∧
    Preserved st (addS st a b).1 ∧
    Preserved st (mulS st a b).1 ∧
    Preserved st (powS P st a p).1 ∧
    Preserved st (expS P st a).1 ∧
    Preserved st (tanhS P st a).1 ∧
    Preserved st (addNumber P st a k).1 ∧
    Preserved st (mulNumber P st a k).1 ∧
    Preserved st (negS P st a).1 ∧
    Preserved st (subS P st a b).1 ∧
    Preserved st (divS P st a b).1 ∧
    (∀ j, (getNode (setLabel st i l) j).data = (getNode st j).data ∧
          (getNode (setLabel st i l) j).grad = (getNode st j).grad ∧
          (getNode (setLabel st i l) j).op = (getNode st j).op) ∧
    (∀ j, j ≠ i → getNode (setLabel st i l) j = getNode st j) := by
  refine ⟨preserved_pushNode st _, preserved_pushNode st _, preserved_pushNode st _,
    preserved_pushNode st _, preserved_pushNode st _, preserved_pushNode st _,
    (addNumber_preserves P st a k).1, (mulNumber_preserves P st a k).1,
    (negS_preserves P st a).1, subS_preserves P st a b, ?_, ?_, ?_⟩
  · show Preserved st (mulS (powS P st b (-1)).1 a (powS P st b (-1)).2).1
    exact preserved_trans (preserved_pushNode st _) (preserved_pushNode _ _)
      (by rw [pushNode_len]; omega)
  · intro j
    unfold setLabel
    rcases eq_or_ne j i with rfl | h
    · rcases Nat.lt_or_ge j st.length with hl | hl
      · rw [getNode_set_eq st j _ hl]
        exact ⟨rfl, rfl, rfl⟩
      · rw [List.set_eq_of_length_le hl]
        exact ⟨rfl, rfl, rfl⟩
    · rw [getNode_set_ne st i j _ h]
      exact ⟨rfl, rfl, rfl⟩
  · intro j hj
    exact getNode_set_ne st i j _ hj

/-! ### Claims C8 and C10: the shape-mismatch error -/

/-- Claim **C8**: `Neuron::forward` on a neuron with `n` weights: with an input
list of the wrong length it returns the recoverable error
`"Expected {n} inputs, not {m}"` and the store comes back exactly as it
was (no node's data, grad, label or producers change); with the right
length it returns `Ok` with a new node whose data is
`tanh(bias + Σ inputᵢ·weightᵢ)`, built solely from `mul`, `add` and `tanh`
nodes over the existing handles. -/
theorem neuron_forward_shape {K : Type} [CommRing K] (P : Prims K)
    (st : Store K) (weights : List Nat) (bias : Nat) (inputs : List Nat)
    (hb : bias < st.length)
    (hw : ∀ w ∈ weights, w < st.length) (hi : ∀ x ∈ inputs, x < st.length) :
    (inputs.length ≠ weights.length →
      neuronForward P st weights bias inputs
        = (.error ("Expected " ++ toString weights.length ++ " inputs, not "
            ++ toString inputs.length), st)) ∧
    (inputs.length = weights.length →
      (neuronForward P st weights bias inputs).1
          = .ok (st.length + 2 * inputs.length) ∧
      dataAt (neuronForward P st weights bias inputs).2
          (st.length + 2 * inputs.length)
        = P.tanh ((inputs.zip weights).foldl
            (fun g q => g + dataAt st q.1 * dataAt st q.2) (dataAt st bias))) := by
  constructor
  · intro hne
    unfold neuronForward
    rw [if_pos hne]
  · intro heq
    have hz : ∀ q ∈ inputs.zip weights, q.1 < st.length ∧ q.2 < st.length := by
      intro q hq
      have := List.of_mem_zip hq
      exact ⟨hi q.1 this.1, hw q.2 this.2⟩
    have hs := neuronSum_spec (inputs.zip weights) st bias hb hz
    have hzlen : (inputs.zip weights).length = inputs.length := by
      rw [List.length_zip, heq, Nat.min_self]
    have hres : neuronForward P st weights bias inputs
        = (.ok (tanhS P (neuronSum st bias (inputs.zip weights)).1
              (neuronSum st bias (inputs.zip weights)).2).2,
           (tanhS P (neuronSum st bias (inputs.zip weights)).1
              (neuronSum st bias (inputs.zip weights)).2).1) := by
      unfold neuronForward
      rw [if_neg (by omega)]
    rw [hres]
    constructor
    · show Except.ok (neuronSum st bias (inputs.zip weights)).1.length = _
      rw [hs.1, hzlen]
    · show dataAt (pushNode _ _).1 (st.length + 2 * inputs.length) = _
      have hlen2 : st.length + 2 * inputs.length
          = (neuronSum st bias (inputs.zip weights)).1.length := by
        rw [hs.1, hzlen]
      rw [hlen2]
      show (getNode (pushNode _ _).1 _).data = _
      rw [getNode_pushNode_len]
      show P.tanh (dataAt _ _) = _
      rw [hs.2.2.2]

theorem pushLeaves_ids_length (nums : List K) :
    ∀ st : Store K, (pushLeaves st nums).2.length = nums.length := by
  induction nums with
  | nil => intro st; rfl
  | cons x xs ih => intro st; simpa [pushLeaves] using ih (newS st x).1

/-- Claim **C10**: reached through a `Layer` (or the `MultiLayerPerceptron`), the
shape mismatch is not returned to the caller: `Layer::forward` and
`Layer::forward_with_numbers` unwrap each neuron's `Result` with
`.expect("")`, so a mismatched input length aborts the program (modelled
`none`) — observe that their return type has no error channel at all. -/
theorem layer_shape_mismatch_panics {K : Type} [CommRing K] (P : Prims K)
    (st : Store K) (ws : List Nat) (b : Nat) (rest : List (List Nat × Nat))
    (inputs : List Nat) (nums : List K)
    (moreLayers : List (List (List Nat × Nat))) :
    (inputs.length ≠ ws.length →
      layerForward P st ((ws, b) :: rest) inputs = none) ∧
    (nums.length ≠ ws.length →
      layerForwardNums P st ((ws, b) :: rest) nums = none) ∧
    (nums.length ≠ ws.length →
      mlpForward P st (((ws, b) :: rest) :: moreLayers) nums = none) := by
  have key : ∀ (st2 : Store K) (inp : List Nat), inp.length ≠ ws.length →
      neuronsForward P inp st2 ((ws, b) :: rest) = none := by
    intro st2 inp hne
    apply neuronsForward_arg P inp st2 (ws, b) rest ("Expected " ++ toString ws.length
      ++ " inputs, not " ++ toString inp.length)
    show (neuronForward P st2 ws b inp).1 = _
    unfold neuronForward
    rw [if_pos hne]
  have hnums : nums.length ≠ ws.length →
      layerForwardNums P st ((ws, b) :: rest) nums = none := by
    intro hne
    unfold layerForwardNums
    apply key
    rw [pushLeaves_ids_length]
    exact hne
  refine ⟨fun hne => key st inputs hne, hnums, fun hne => ?_⟩
  show (match layerForwardNums P st ((ws, b) :: rest) nums with
      | none => none
      | some r => mlpLayers P r.1 r.2 moreLayers) = none
  rw [hnums hne]

/-! ### Claim C1: the backward pass is a reverse-topological sweep -/

/-- Claim **C1**: for every well-formed DAG of Scalar operations and every root,
`back_prop` first records every node reachable through producer edges
exactly once (the ordering is duplicate-free, and membership coincides with
reachability — a shared sub-expression is recorded once) in post-order
(every node after its producers), seeds the root's grad to 1, and processes
the recorded ordering in strict reverse; consequently, whenever the
reversed ordering splits as `pre ++ n :: suf`, every consumer of `n` was
processed in `pre`, and `n`'s grad after the whole pass equals its grad at
the moment its own closure executes — complete and final. -/
theorem backprop_reverse_topological {K : Type} [CommRing K] (P : Prims K)
    (st : Store K) (root : Nat) (hWF : WF st) (hroot : root < st.length) :
    (backOrder st root).Nodup ∧
    (∀ x, x ∈ backOrder st root ↔ Reaches st root x) ∧
    TopoFrom st [] (backOrder st root) ∧
    backProp P st root
      = (backOrder st root).reverse.foldl (backStep P) (setGrad st root 1) ∧
    gradAt (setGrad st root 1) root = 1 ∧
    (∀ pre n suf, (backOrder st root).reverse = pre ++ n :: suf →
      (∀ m ∈ backOrder st root, n ∈ prodsAt st m → m ∈ pre) ∧
      gradAt (backProp P st root) n
        = gradAt (pre.foldl (backStep P) (setGrad st root 1)) n) := by
  obtain ⟨hnd, hmem, htopo⟩ := backOrder_spec st hWF root hroot
  refine ⟨hnd, hmem, htopo, rfl, ?_, ?_⟩
  · show (getNode (st.set root _) root).grad = 1
    rw [getNode_set_eq st root _ hroot]
  · intro pre n suf hdec
    have hord : backOrder st root = suf.reverse ++ n :: pre.reverse := by
      have := congrArg List.reverse hdec
      simpa [List.reverse_append] using this
    constructor
    · intro m hm hp
      have hm2 : m ∈ suf.reverse ++ n :: pre.reverse := by rw [← hord]; exact hm
      have := topo_consumers_after st suf.reverse pre.reverse n
        (by rw [← hord]; exact htopo) (by rw [← hord]; exact hnd) m hm2 hp
      exact List.mem_reverse.1 this
    · have h := backProp_grad_final P st hWF root hroot pre suf n hdec
      exact h.1.trans h.2

theorem real_rpow_neg_one (x : ℝ) : x ^ (-1:ℝ) = x⁻¹ := by
  rw [show (-1:ℝ) = ((-1 : ℤ) : ℝ) by norm_num, Real.rpow_intCast, zpow_neg_one]

/-- Claim **C5**: the data of each binary result equals the host operation applied
eagerly at construction: `(a+b).data = da+db`, `(a*b).data = da*db`,
`(a-b).data = da-db`, and — division being multiplication by the
reciprocal `b^(-1)` — `(a/b).data = da/db` when `db ≠ 0`. -/
theorem binary_op_data (da db : ℝ) (hdb : db ≠ 0) :
    dataAt (addGraph da db).1 (addGraph da db).2 = da + db ∧
    dataAt (mulGraph da db).1 (mulGraph da db).2 = da * db ∧
    dataAt (subGraph realPrims da db).1 (subGraph realPrims da db).2 = da - db ∧
    dataAt (divGraph realPrims da db).1 (divGraph realPrims da db).2 = da / db := by
  refine ⟨?_, ?_, ?_, ?_⟩
  · rfl
  · rfl
  · show da + db * (-1) = da - db
    ring
  · show da * (dataAt _ _ ^ (-1:ℝ)) = da / db
    show da * ((db : ℝ) ^ (-1:ℝ)) = da / db
    rw [real_rpow_neg_one, div_eq_mul_inv]

/-- Claim **C5 (witness)**: at `a = 2`, `b = 4` the four data values are
`6`, `8`, `-2` and `1/2`. -/
theorem binary_op_data_witness :
    ((4:ℝ) ≠ 0) ∧
    (dataAt (addGraph (2:ℝ) 4).1 (addGraph (2:ℝ) 4).2 = 2 + 4 ∧
     dataAt (mulGraph (2:ℝ) 4).1 (mulGraph (2:ℝ) 4).2 = 2 * 4 ∧
     dataAt (subGraph realPrims (2:ℝ) 4).1 (subGraph realPrims (2:ℝ) 4).2 = 2 - 4 ∧
     dataAt (divGraph realPrims (2:ℝ) 4).1 (divGraph realPrims (2:ℝ) 4).2 = 2 / 4) :=
  ⟨by simp, binary_op_data 2 4 (by simp)⟩

theorem tanh_sq_formula (x : ℝ) :
    1 - Real.tanh x ^ 2 = 4 * Real.exp x ^ 2 / (Real.exp x ^ 2 + 1) ^ 2 := by
  rw [Real.tanh_eq_sinh_div_cosh, Real.sinh_eq, Real.cosh_eq, Real.exp_neg]
  have h : Real.exp x ≠ 0 := (Real.exp_pos x).ne'
  have h2 : Real.exp x ^ 2 + 1 ≠ 0 := by positivity
  have h3 : Real.exp x + (Real.exp x)⁻¹ ≠ 0 := by positivity
  field_simp
  ring

theorem exp_08814_bounds :
    (2.41409:ℝ) ≤ Real.exp 0.8814 ∧ Real.exp 0.8814 ≤ 2.41428 := by
  have h := @Real.exp_bound (0.8814:ℝ) (by rw [abs_of_pos] <;> norm_num)
    7 (by norm_num)
  rw [show ((7:ℕ).succ : ℝ) = 8 by norm_num] at h
  simp only [Finset.sum_range_succ, Finset.sum_range_zero, Nat.factorial] at h
  rw [abs_of_pos (by norm_num : (0:ℝ) < 0.8814)] at h
  rw [abs_le] at h
  norm_num at h
  constructor <;> nlinarith [h.1, h.2]

theorem d_08814_bounds :
    (0.49995:ℝ) ≤ 1 - Real.tanh 0.8814 ^ 2 ∧ 1 - Real.tanh 0.8814 ^ 2 ≤ 0.50005 := by
  rw [tanh_sq_formula]
  obtain ⟨h1, h2⟩ := exp_08814_bounds
  set A := Real.exp 0.8814 with hA
  have hpos : (0:ℝ) < A ^ 2 + 1 := by positivity
  have hsq : (5.8278:ℝ) ≤ A ^ 2 ∧ A ^ 2 ≤ 5.8288 := by
    constructor <;> nlinarith
  constructor
  · rw [le_div_iff (by positivity)]
    nlinarith [hsq.1, hsq.2]
  · rw [div_le_iff (by positivity)]
    nlinarith [hsq.1, hsq.2]

theorem tanhGraph_store (v1 v2 v3 v4 v5 : ℝ) :
    (tanhGraph v1 v2 v3 v4 v5).1 = [
      ⟨v1, 0, "", .leaf⟩, ⟨v2, 0, "", .leaf⟩, ⟨v3, 0, "", .leaf⟩,
      ⟨v4, 0, "", .leaf⟩, ⟨v5, 0, "", .leaf⟩,
      ⟨v1 * v3, 0, "( * )", .mul 0 2⟩,
      ⟨v2 * v4, 0, "( * )", .mul 1 3⟩,
      ⟨v1 * v3 + v2 * v4, 0, "(( * ) + ( * ))", .add 5 6⟩,
      ⟨v1 * v3 + v2 * v4 + v5, 0, "((( * ) + ( * )) + )", .add 7 4⟩,
      ⟨Real.tanh (v1 * v3 + v2 * v4 + v5), 0, "tanh(((( * ) + ( * )) + ))", .tanh 8⟩] := by
  simp [tanhGraph, sumGraph, newS, mulS, addS, tanhS, realPrims, pushNode, getNode,
    dataAt, labelAt, List.getD]

set_option maxHeartbeats 1000000 in
theorem tanhGraph_grads (v1 v2 v3 v4 v5 : ℝ) :
    gradAt (backProp realPrims (tanhGraph v1 v2 v3 v4 v5).1 9) 9 = 1 ∧
    gradAt (backProp realPrims (tanhGraph v1 v2 v3 v4 v5).1 9) 8
      = 1 - Real.tanh (v1 * v3 + v2 * v4 + v5) ^ 2 ∧
    gradAt (backProp realPrims (tanhGraph v1 v2 v3 v4 v5).1 9) 0
      = v3 * (1 - Real.tanh (v1 * v3 + v2 * v4 + v5) ^ 2) ∧
    gradAt (backProp realPrims (tanhGraph v1 v2 v3 v4 v5).1 9) 1
      = v4 * (1 - Real.tanh (v1 * v3 + v2 * v4 + v5) ^ 2) ∧
    gradAt (backProp realPrims (tanhGraph v1 v2 v3 v4 v5).1 9) 2
      = v1 * (1 - Real.tanh (v1 * v3 + v2 * v4 + v5) ^ 2) ∧
    gradAt (backProp realPrims (tanhGraph v1 v2 v3 v4 v5).1 9) 3
      = v2 * (1 - Real.tanh (v1 * v3 + v2 * v4 + v5) ^ 2) ∧
    gradAt (backProp realPrims (tanhGraph v1 v2 v3 v4 v5).1 9) 4
      = 1 - Real.tanh (v1 * v3 + v2 * v4 + v5) ^ 2 ∧
    gradAt (backProp realPrims (tanhGraph v1 v2 v3 v4 v5).1 9) 5
      = 1 - Real.tanh (v1 * v3 + v2 * v4 + v5) ^ 2 ∧
    gradAt (backProp realPrims (tanhGraph v1 v2 v3 v4 v5).1 9) 6
      = 1 - Real.tanh (v1 * v3 + v2 * v4 + v5) ^ 2 ∧
    gradAt (backProp realPrims (tanhGraph v1 v2 v3 v4 v5).1 9) 7
      = 1 - Real.tanh (v1 * v3 + v2 * v4 + v5) ^ 2 := by
  rw [tanhGraph_store]
  refine ⟨?_, ?_, ?_, ?_, ?_, ?_, ?_, ?_, ?_, ?_⟩ <;>
    (conv_lhs => simp [backProp, backOrder, visit, prodsAt, producersOf, getNode,
      backStep, addGrad, setGrad, gradAt, dataAt, realPrims, List.getD]) <;>
    ring

/-! ### Claim C2: the canonical example's gradients -/

theorem canonical_arg : (2 * (-3) + 0 * 1 + 6.8814 : ℝ) = 0.8814 := by norm_num

/-- Claim **C2 (counterexample)**: in the canonical example the claimed values
`x1.grad ≈ -3.0000` and `x2.grad ≈ 1.0000` are wrong (reading `≈` as
agreement within `1/1000`): the actual gradients are
`x1.grad = -3·(1 - tanh(0.8814)²) ≈ -1.5` and
`x2.grad = 1 - tanh(0.8814)² ≈ 0.5`. -/
theorem canonical_grads_not_spec_values :
    ¬ (|gradAt (backProp realPrims (tanhGraph 2 0 (-3) 1 6.8814).1 9) 0 - (-3)| ≤ 1/1000 ∧
       |gradAt (backProp realPrims (tanhGraph 2 0 (-3) 1 6.8814).1 9) 1 - 1| ≤ 1/1000) := by
  obtain ⟨-, -, h0, h1, -, -, -, -, -, -⟩ := tanhGraph_grads 2 0 (-3) 1 6.8814
  rw [canonical_arg] at h0 h1
  rw [h0, h1]
  obtain ⟨hd1, hd2⟩ := d_08814_bounds
  rintro ⟨ha, -⟩
  rw [abs_le] at ha
  nlinarith [ha.1, ha.2]

/-- Claim **C2 (amended)**: for leaf Scalars `x1=2, x2=0, w1=-3, w2=1, b=6.8814`
with `sum = x1*w1 + x2*w2 + b` and `out = tanh(sum)`, after the backward
pass on `out`: `out.grad = 1` exactly, `sum.grad ≈ 0.5000`,
`w1.grad ≈ 1.0000`, `w2.grad ≈ 0.0000`, `x1.grad ≈ -1.5000` and
`x2.grad ≈ 0.5000` (each `≈` within `1/1000`). -/
theorem canonical_grads_amended :
    gradAt (backProp realPrims (tanhGraph 2 0 (-3) 1 6.8814).1 9) 9 = 1 ∧
    |gradAt (backProp realPrims (tanhGraph 2 0 (-3) 1 6.8814).1 9) 8 - 0.5| ≤ 1/1000 ∧
    |gradAt (backProp realPrims (tanhGraph 2 0 (-3) 1 6.8814).1 9) 2 - 1| ≤ 1/1000 ∧
    |gradAt (backProp realPrims (tanhGraph 2 0 (-3) 1 6.8814).1 9) 3 - 0| ≤ 1/1000 ∧
    |gradAt (backProp realPrims (tanhGraph 2 0 (-3) 1 6.8814).1 9) 0 - (-1.5)| ≤ 1/1000 ∧
    |gradAt (backProp realPrims (tanhGraph 2 0 (-3) 1 6.8814).1 9) 1 - 0.5| ≤ 1/1000 := by
  obtain ⟨h9, h8, h0, h1, h2, h3, -, -, -, -⟩ := tanhGraph_grads 2 0 (-3) 1 6.8814
  rw [canonical_arg] at h8 h0 h1 h2 h3
  rw [h9, h8, h0, h1, h2, h3]
  obtain ⟨hd1, hd2⟩ := d_08814_bounds
  refine ⟨rfl, ?_, ?_, ?_, ?_, ?_⟩ <;> rw [abs_le] <;> constructor <;> nlinarith

/-! ### Claim C7: the composite tanh agrees with the primitive one -/

theorem real_rpow_neg_two (x : ℝ) : x ^ ((-1:ℝ) - 1) = (x ^ 2)⁻¹ := by
  rw [show ((-1:ℝ) - 1) = ((-2 : ℤ) : ℝ) by norm_num, Real.rpow_intCast,
    show ((-2 : ℤ)) = -(2:ℤ) from rfl, zpow_neg]
  norm_num
  exact_mod_cast rfl

theorem tanh_exp_formula (x : ℝ) :
    Real.tanh x = (Real.exp x ^ 2 - 1) / (Real.exp x ^ 2 + 1) := by
  rw [Real.tanh_eq_sinh_div_cosh, Real.sinh_eq, Real.cosh_eq, Real.exp_neg]
  have h : Real.exp x ≠ 0 := (Real.exp_pos x).ne'
  have h2 : Real.exp x ^ 2 + 1 ≠ 0 := by positivity
  have h3 : Real.exp x + (Real.exp x)⁻¹ ≠ 0 := by positivity
  field_simp
  ring

theorem exp_mul_two (s : ℝ) : Real.exp (s * 2) = Real.exp s ^ 2 := by
  rw [show s * 2 = s + s by ring, Real.exp_add, sq]

/-- The gradient that the composite graph pushes into the `sum` node equals
the tanh derivative `1 - tanh(s)²`. -/
theorem manualD_eq (s : ℝ) :
    -(2 * (Real.exp (s * 2) *
        ((Real.exp (s * 2) + 1) ^ ((-1:ℝ) - 1) * (Real.exp (s * 2) + -1)))) +
      2 * (Real.exp (s * 2) * (Real.exp (s * 2) + 1) ^ (-1:ℝ))
      = 1 - Real.tanh s ^ 2 := by
  rw [real_rpow_neg_one, real_rpow_neg_two, tanh_sq_formula, exp_mul_two]
  have h2 : Real.exp s ^ 2 + 1 ≠ 0 := by positivity
  have h4 : (Real.exp s ^ 2 + 1) ^ 2 ≠ 0 := by positivity
  field_simp
  ring

/-- The composite graph's output data equals `tanh(s)`. -/
theorem manualData_eq (s : ℝ) :
    (Real.exp (s * 2) + -1) * (Real.exp (s * 2) + 1) ^ (-1:ℝ) = Real.tanh s := by
  rw [real_rpow_neg_one, exp_mul_two, tanh_exp_formula]
  have h2 : Real.exp s ^ 2 + 1 ≠ 0 := by positivity
  field_simp
  ring

theorem manualGraph_store (v1 v2 v3 v4 v5 : ℝ) :
    (manualGraph v1 v2 v3 v4 v5).1 = [
      ⟨v1, 0, "", .leaf⟩, ⟨v2, 0, "", .leaf⟩, ⟨v3, 0, "", .leaf⟩,
      ⟨v4, 0, "", .leaf⟩, ⟨v5, 0, "", .leaf⟩,
      ⟨v1 * v3, 0, "( * )", .mul 0 2⟩,
      ⟨v2 * v4, 0, "( * )", .mul 1 3⟩,
      ⟨v1 * v3 + v2 * v4, 0, "(( * ) + ( * ))", .add 5 6⟩,
      ⟨v1 * v3 + v2 * v4 + v5, 0, "((( * ) + ( * )) + )", .add 7 4⟩,
      ⟨2, 0, "(Constant )", .leaf⟩,
      ⟨(v1 * v3 + v2 * v4 + v5) * 2, 0, "(((( * ) + ( * )) + ) * (Constant ))", .mul 8 9⟩,
      ⟨Real.exp ((v1 * v3 + v2 * v4 + v5) * 2), 0,
        "exp((((( * ) + ( * )) + ) * (Constant )))", .exp 10⟩,
      ⟨-1, 0, "(Constant )", .leaf⟩,
      ⟨Real.exp ((v1 * v3 + v2 * v4 + v5) * 2) + -1, 0,
        "(exp((((( * ) + ( * )) + ) * (Constant ))) + (Constant ))", .add 11 12⟩,
      ⟨2, 0, "(Constant )", .leaf⟩,
      ⟨(v1 * v3 + v2 * v4 + v5) * 2, 0, "(((( * ) + ( * )) + ) * (Constant ))", .mul 8 14⟩,
      ⟨Real.exp ((v1 * v3 + v2 * v4 + v5) * 2), 0,
        "exp((((( * ) + ( * )) + ) * (Constant )))", .exp 15⟩,
      ⟨1, 0, "(Constant )", .leaf⟩,
      ⟨Real.exp ((v1 * v3 + v2 * v4 + v5) * 2) + 1, 0,
        "(exp((((( * ) + ( * )) + ) * (Constant ))) + (Constant ))", .add 16 17⟩,
      ⟨(Real.exp ((v1 * v3 + v2 * v4 + v5) * 2) + 1) ^ (-1 : ℝ), 0,
        "((exp((((( * ) + ( * )) + ) * (Constant ))) + (Constant ))^)", .pow 18 (-1)⟩,
      ⟨(Real.exp ((v1 * v3 + v2 * v4 + v5) * 2) + -1) *
          (Real.exp ((v1 * v3 + v2 * v4 + v5) * 2) + 1) ^ (-1 : ℝ), 0,
        "((exp((((( * ) + ( * )) + ) * (Constant ))) + (Constant )) * ((exp((((( * ) + ( * )) + ) * (Constant ))) + (Constant ))^))",
        .mul 13 19⟩] := by
  simp [manualGraph, sumGraph, newS, mulS, addS, tanhS, expS, powS, divS, mulNumber,
    addNumber, setLabel, realPrims, pushNode, getNode, dataAt, labelAt, List.getD]

set_option maxHeartbeats 2000000 in
theorem manualGraph_backward (v1 v2 v3 v4 v5 : ℝ) :
    backProp realPrims (manualGraph v1 v2 v3 v4 v5).1 20
      = manualResult v1 v2 v3 v4 v5 := by
  rw [manualGraph_store]
  simp [manualResult, backProp, backOrder, visit, prodsAt, producersOf, getNode,
    backStep, addGrad, setGrad, gradAt, dataAt, labelAt, realPrims, List.getD]

/-- Claim **C7**: for every input assignment, the manually composed
`(exp(2·sum) - 1) / (exp(2·sum) + 1)` — built from `mul_number`, `exp`,
`add_number` and division — produces the same data as the direct
`tanh(sum)` node, and after a backward pass the gradients of all shared
upstream nodes (`x1, x2, w1, w2, b, x1w1, x2w2, x1w1+x2w2, sum`, node ids
0–8) are identical. -/
theorem manual_tanh_equivalence (v1 v2 v3 v4 v5 : ℝ) :
    dataAt (manualGraph v1 v2 v3 v4 v5).1 20 = dataAt (tanhGraph v1 v2 v3 v4 v5).1 9 ∧
    ∀ i ≤ 8, gradAt (backProp realPrims (manualGraph v1 v2 v3 v4 v5).1 20) i
        = gradAt (backProp realPrims (tanhGraph v1 v2 v3 v4 v5).1 9) i := by
  obtain ⟨-, h8, h0, h1, h2, h3, h4, h5, h6, h7⟩ := tanhGraph_grads v1 v2 v3 v4 v5
  constructor
  · rw [manualGraph_store, tanhGraph_store]
    show (Real.exp ((v1 * v3 + v2 * v4 + v5) * 2) + -1) *
        (Real.exp ((v1 * v3 + v2 * v4 + v5) * 2) + 1) ^ (-1:ℝ)
      = Real.tanh (v1 * v3 + v2 * v4 + v5)
    exact manualData_eq (v1 * v3 + v2 * v4 + v5)
  · intro i hi
    rw [manualGraph_backward]
    interval_cases i
    · rw [h0]
      show v3 * _ = _
      rw [manualD_eq]
    · rw [h1]
      show v4 * _ = _
      rw [manualD_eq]
    · rw [h2]
      show v1 * _ = _
      rw [manualD_eq]
    · rw [h3]
      show v2 * _ = _
      rw [manualD_eq]
    · rw [h4]
      show -(2 * (Real.exp ((v1 * v3 + v2 * v4 + v5) * 2) *
          ((Real.exp ((v1 * v3 + v2 * v4 + v5) * 2) + 1) ^ ((-1:ℝ) - 1) *
            (Real.exp ((v1 * v3 + v2 * v4 + v5) * 2) + -1)))) +
        2 * (Real.exp ((v1 * v3 + v2 * v4 + v5) * 2) *
          (Real.exp ((v1 * v3 + v2 * v4 + v5) * 2) + 1) ^ (-1:ℝ)) = _
      rw [manualD_eq]
    · rw [h5]
      show -(2 * (Real.exp ((v1 * v3 + v2 * v4 + v5) * 2) *
          ((Real.exp ((v1 * v3 + v2 * v4 + v5) * 2) + 1) ^ ((-1:ℝ) - 1) *
            (Real.exp ((v1 * v3 + v2 * v4 + v5) * 2) + -1)))) +
        2 * (Real.exp ((v1 * v3 + v2 * v4 + v5) * 2) *
          (Real.exp ((v1 * v3 + v2 * v4 + v5) * 2) + 1) ^ (-1:ℝ)) = _
      rw [manualD_eq]
    · rw [h6]
      show -(2 * (Real.exp ((v1 * v3 + v2 * v4 + v5) * 2) *
          ((Real.exp ((v1 * v3 + v2 * v4 + v5) * 2) + 1) ^ ((-1:ℝ) - 1) *
            (Real.exp ((v1 * v3 + v2 * v4 + v5) * 2) + -1)))) +
        2 * (Real.exp ((v1 * v3 + v2 * v4 + v5) * 2) *
          (Real.exp ((v1 * v3 + v2 * v4 + v5) * 2) + 1) ^ (-1:ℝ)) = _
      rw [manualD_eq]
    · rw [h7]
      show -(2 * (Real.exp ((v1 * v3 + v2 * v4 + v5) * 2) *
          ((Real.exp ((v1 * v3 + v2 * v4 + v5) * 2) + 1) ^ ((-1:ℝ) - 1) *
            (Real.exp ((v1 * v3 + v2 * v4 + v5) * 2) + -1)))) +
        2 * (Real.exp ((v1 * v3 + v2 * v4 + v5) * 2) *
          (Real.exp ((v1 * v3 + v2 * v4 + v5) * 2) + 1) ^ (-1:ℝ)) = _
      rw [manualD_eq]
    · rw [h8]
      show -(2 * (Real.exp ((v1 * v3 + v2 * v4 + v5) * 2) *
          ((Real.exp ((v1 * v3 + v2 * v4 + v5) * 2) + 1) ^ ((-1:ℝ) - 1) *
            (Real.exp ((v1 * v3 + v2 * v4 + v5) * 2) + -1)))) +
        2 * (Real.exp ((v1 * v3 + v2 * v4 + v5) * 2) *
          (Real.exp ((v1 * v3 + v2 * v4 + v5) * 2) + 1) ^ (-1:ℝ)) = _
      rw [manualD_eq]

/-! ### Witnesses: each hypothesis-bearing claim theorem applied at one
concrete input -/

/-- Claim **C1 (witness)**: the reverse-topological facts at the concrete
reused-operand graph `c = a + a` with `a = 3`. -/
theorem backprop_reverse_topological_witness :
    WF (reuseGraph (3:ℤ)).1 ∧ 1 < (reuseGraph (3:ℤ)).1.length ∧
    ((backOrder (reuseGraph (3:ℤ)).1 1).Nodup ∧
     (∀ x, x ∈ backOrder (reuseGraph (3:ℤ)).1 1 ↔ Reaches (reuseGraph (3:ℤ)).1 1 x) ∧
     TopoFrom (reuseGraph (3:ℤ)).1 [] (backOrder (reuseGraph (3:ℤ)).1 1) ∧
     backProp intPrims (reuseGraph (3:ℤ)).1 1
       = (backOrder (reuseGraph (3:ℤ)).1 1).reverse.foldl (backStep intPrims)
           (setGrad (reuseGraph (3:ℤ)).1 1 1) ∧
     gradAt (setGrad (reuseGraph (3:ℤ)).1 1 1) 1 = 1 ∧
     (∀ pre n suf, (backOrder (reuseGraph (3:ℤ)).1 1).reverse = pre ++ n :: suf →
       (∀ m ∈ backOrder (reuseGraph (3:ℤ)).1 1,
          n ∈ prodsAt (reuseGraph (3:ℤ)).1 m → m ∈ pre) ∧
       gradAt (backProp intPrims (reuseGraph (3:ℤ)).1 1) n
         = gradAt (pre.foldl (backStep intPrims) (setGrad (reuseGraph (3:ℤ)).1 1 1)) n)) :=
  ⟨by decide, by decide,
   backprop_reverse_topological intPrims (reuseGraph (3:ℤ)).1 1 (by decide) (by decide)⟩

/-- Claim **C7 (witness)**: at the all-ones assignment the composite and primitive
graphs give the `sum` node the same gradient. -/
theorem manual_tanh_equivalence_witness :
    (8 ≤ 8) ∧
    gradAt (backProp realPrims (manualGraph 1 1 1 1 1).1 20) 8
      = gradAt (backProp realPrims (tanhGraph 1 1 1 1 1).1 9) 8 :=
  ⟨by decide, (manual_tanh_equivalence 1 1 1 1 1).2 8 (by decide)⟩

/-- Claim **C8 (witness)**: a one-weight neuron over the two-node store, applied
to a correctly sized input list. -/
theorem neuron_forward_shape_witness :
    (1 < (reuseGraph (3:ℤ)).1.length) ∧
    (∀ w ∈ ([0] : List Nat), w < (reuseGraph (3:ℤ)).1.length) ∧
    (∀ x ∈ ([0] : List Nat), x < (reuseGraph (3:ℤ)).1.length) ∧
    ((([0] : List Nat).length ≠ ([0] : List Nat).length →
      neuronForward intPrims (reuseGraph (3:ℤ)).1 [0] 1 [0]
        = (.error ("Expected " ++ toString ([0] : List Nat).length ++ " inputs, not "
            ++ toString ([0] : List Nat).length), (reuseGraph (3:ℤ)).1)) ∧
     (([0] : List Nat).length = ([0] : List Nat).length →
      (neuronForward intPrims (reuseGraph (3:ℤ)).1 [0] 1 [0]).1
          = .ok ((reuseGraph (3:ℤ)).1.length + 2 * ([0] : List Nat).length) ∧
      dataAt (neuronForward intPrims (reuseGraph (3:ℤ)).1 [0] 1 [0]).2
          ((reuseGraph (3:ℤ)).1.length + 2 * ([0] : List Nat).length)
        = intPrims.tanh ((([0] : List Nat).zip [0]).foldl
            (fun g q => g + dataAt (reuseGraph (3:ℤ)).1 q.1
              * dataAt (reuseGraph (3:ℤ)).1 q.2) (dataAt (reuseGraph (3:ℤ)).1 1)))) :=
  ⟨by decide, by decide, by decide,
   neuron_forward_shape intPrims (reuseGraph (3:ℤ)).1 [0] 1 [0]
     (by decide) (by decide) (by decide)⟩

/-- Claim **C9 (witness)**: the add node allocated over the two-node store leaves
node 0 untouched, and `set_label` at node 0 leaves node 1 untouched. -/
theorem construction_frame_witness :
    (0 < (reuseGraph (3:ℤ)).1.length) ∧
    getNode (addS (reuseGraph (3:ℤ)).1 0 0).1 0 = getNode (reuseGraph (3:ℤ)).1 0 ∧
    getNode (setLabel (reuseGraph (3:ℤ)).1 0 "x") 1 = getNode (reuseGraph (3:ℤ)).1 1 :=
  ⟨by decide,
   (construction_frame intPrims (reuseGraph (3:ℤ)).1 0 0 2 2 "x" 0).2.1 0 (by decide),
   (construction_frame intPrims (reuseGraph (3:ℤ)).1 0 0 2 2 "x"
     0).2.2.2.2.2.2.2.2.2.2.2.2 1 (by decide)⟩

/-- Claim **C10 (witness)**: a one-neuron layer with one weight, given two inputs,
panics in all three entry points. -/
theorem layer_shape_mismatch_panics_witness :
    (([0, 0] : List Nat).length ≠ ([0] : List Nat).length) ∧
    (([3, 4] : List ℤ).length ≠ ([0] : List Nat).length) ∧
    layerForward intPrims (reuseGraph (3:ℤ)).1 [([0], 1)] [0, 0] = none ∧
    layerForwardNums intPrims (reuseGraph (3:ℤ)).1 [([0], 1)] [3, 4] = none ∧
    mlpForward intPrims (reuseGraph (3:ℤ)).1 [[([0], 1)]] [3, 4] = none :=
  ⟨by decide, by decide,
   (layer_shape_mismatch_panics intPrims (reuseGraph (3:ℤ)).1 [0] 1 [] [0, 0]
     [(3:ℤ), 4] []).1 (by decide),
   (layer_shape_mismatch_panics intPrims (reuseGraph (3:ℤ)).1 [0] 1 [] [0, 0]
     [(3:ℤ), 4] []).2.1 (by decide),
   (layer_shape_mismatch_panics intPrims (reuseGraph (3:ℤ)).1 [0] 1 [] [0, 0]
     [(3:ℤ), 4] []).2.2 (by decide)⟩

end MicroGrad
